import Mathlib

/-!
Verification of the NFT-minting token-lifecycle client.

Shallow embedding of the token-lifecycle client of this repository
(`src/mint.js`, `src/retrieve.js`, `src/get-item.js`, and the ownership
verifier `src/unnamed/part_002`, i.e. `verifyOwner`).

Modelling conventions:
* JavaScript strings are Lean `String`s (lists of unicode scalars; UTF-16
  surrogate details are not modelled).
* JavaScript numbers are modelled by `JsNum`: `NaN`, the two infinities, or an
  exact rational.  Binary-float rounding is not modelled; none of the verified
  properties depends on rounding.
* The remote ledger (an Ethereum JSON-RPC endpoint accessed through ethers.js)
  is an oracle, a record of pure functions fixed for the duration of one call:
  `none`/`Except.error` models a call that throws, `some`/`Except.ok` models a
  call that returns.  The source performs each RPC read at most once per value,
  so a per-call-deterministic oracle is faithful.
* Thrown JavaScript errors are `Except.error` values of per-module error
  inductives whose constructors correspond one-to-one to the `throw` sites of
  the source (the constructor name records the message of the `new Error`).
-/

namespace NftClient

/-! ## Characters, digits, and elementary string functions -/

/-- The whitespace characters skipped by the JSON reader (space, tab, newline,
carriage return). -/
def isWsChar (c : Char) : Bool :=
  c = ' ' || c = '\t' || c = '\n' || c = '\r'

/-- Decimal-digit test. -/
def isDigitCh (c : Char) : Bool :=
  c = '0' || c = '1' || c = '2' || c = '3' || c = '4' ||
  c = '5' || c = '6' || c = '7' || c = '8' || c = '9'

/-- The decimal digit character for `n < 10` (junk `'9'` above). -/
def digitCh (n : Nat) : Char :=
  match n with
  | 0 => '0' | 1 => '1' | 2 => '2' | 3 => '3' | 4 => '4'
  | 5 => '5' | 6 => '6' | 7 => '7' | 8 => '8' | _ => '9'

/-- Numeric value of a decimal digit character (junk `0` for non-digits). -/
def digitVal (c : Char) : Nat :=
  match c with
  | '0' => 0 | '1' => 1 | '2' => 2 | '3' => 3 | '4' => 4
  | '5' => 5 | '6' => 6 | '7' => 7 | '8' => 8 | '9' => 9
  | _ => 0

/-- Fuel-indexed decimal printing (structural recursion on the fuel keeps the
function reducible inside the kernel). -/
def natToCharsFuel : Nat → Nat → List Char
  | 0, _ => []
  | fuel + 1, n =>
    if n < 10 then [digitCh n]
    else natToCharsFuel fuel (n / 10) ++ [digitCh (n % 10)]

/-- Decimal printing of a natural number, most significant digit first
(the digit sequence of JavaScript `Number.prototype.toString` /
`BigInt.prototype.toString` on non-negative integer values). -/
def natToChars (n : Nat) : List Char := natToCharsFuel (n + 1) n

/-- Value of a digit string, most significant digit first. -/
def digitsVal (l : List Char) : Nat :=
  l.foldl (fun a c => a * 10 + digitVal c) 0

/-- Decimal printing of an integer (digit sequence of JavaScript
`toString` on integer-valued numbers and bigints). -/
def intToChars (n : Int) : List Char :=
  if n < 0 then '-' :: natToChars n.natAbs else natToChars n.toNat

def natToStr (n : Nat) : String := String.mk (natToChars n)

def intToStr (n : Int) : String := String.mk (intToChars n)

/-- Prefix test `pre.isPrefixOf s` on character lists: the model of JavaScript
`String.prototype.startsWith`. -/
def strStartsWith (s pre : String) : Bool :=
  List.isPrefixOf pre.data s.data

/-- Substring test: the model of JavaScript `String.prototype.includes`.
`pat` occurs as a contiguous infix of `s`. -/
def containsSub (s pat : String) : Bool :=
  decide (pat.data <:+: s.data)

/-- Leading/trailing-whitespace trim (JavaScript `String.prototype.trim`). -/
def trimWs (s : String) : String :=
  String.mk (((s.data.dropWhile isWsChar).reverse.dropWhile isWsChar).reverse)

/-! ## JSON values

JSON values as produced by `JSON.parse` and consumed by `JSON.stringify`.
Numbers are modelled as integers: every numeric literal occurring in the
repository's metadata traffic is integral, and fractional (binary-float)
literals are outside the model — the reader below rejects them explicitly
rather than misreading them. -/

inductive Json where
  | null
  | bool (b : Bool)
  | num (n : Int)
  | str (s : String)
  | arr (elems : List Json)
  | obj (fields : List (String × Json))
deriving Repr, Inhabited

/-- String-body escaping of `JSON.stringify`: `"` and `\` are escaped.
(Control characters, which `JSON.stringify` escapes as `\n`, `\uXXXX` …,
are emitted verbatim by the model; this changes only the intermediate
blob, not any round-trip or dispatch behaviour verified here.) -/
def escapeChars : List Char → List Char
  | [] => []
  | c :: cs =>
    if c = '"' then '\\' :: '"' :: escapeChars cs
    else if c = '\\' then '\\' :: '\\' :: escapeChars cs
    else c :: escapeChars cs

/-- Serialized form of a JSON string literal, quotes included. -/
def serStr (s : String) : List Char :=
  '"' :: (escapeChars s.data ++ ['"'])

mutual

/-- The model of `JSON.stringify` (compact form, no added whitespace),
producing a character list. -/
def serJson : Json → List Char
  | .null => 'n' :: ['u', 'l', 'l']
  | .bool true => 't' :: ['r', 'u', 'e']
  | .bool false => 'f' :: ['a', 'l', 's', 'e']
  | .num n => intToChars n
  | .str s => serStr s
  | .arr es => '[' :: (serElems es ++ [']'])
  | .obj fs => '{' :: (serFields fs ++ ['}'])

/-- Comma-separated serialization of array elements. -/
def serElems : List Json → List Char
  | [] => []
  | [e] => serJson e
  | e :: e' :: es => serJson e ++ ',' :: serElems (e' :: es)

/-- Comma-separated serialization of object members. -/
def serFields : List (String × Json) → List Char
  | [] => []
  | [(k, v)] => serStr k ++ ':' :: serJson v
  | (k, v) :: f :: fs => serStr k ++ ':' :: serJson v ++ ',' :: serFields (f :: fs)

end

mutual

/-- Structural size of a JSON value, used as the fuel bound of the reader. -/
def jsizeV : Json → Nat
  | .arr es => jsizeE es + 1
  | .obj fs => jsizeF fs + 1
  | _ => 1

def jsizeE : List Json → Nat
  | [] => 0
  | e :: es => jsizeV e + jsizeE es + 1

def jsizeF : List (String × Json) → Nat
  | [] => 0
  | (_, v) :: fs => jsizeV v + jsizeF fs + 1

end

/-! ## The JSON reader (model of `JSON.parse`)

A fuel-indexed recursive-descent reader over character lists.  Leading
whitespace is skipped before every token; the reader returns the parsed value
together with the unconsumed rest of the input, and `none` models a
`SyntaxError` thrown by `JSON.parse`. -/

/-- Skip JSON whitespace. -/
def skipWs : List Char → List Char
  | [] => []
  | c :: cs => if isWsChar c then skipWs cs else c :: cs

/-- Strip an expected literal character sequence. -/
def expectChars : List Char → List Char → Option (List Char)
  | [], cs => some cs
  | _ :: _, [] => none
  | p :: ps, c :: cs => if c = p then expectChars ps cs else none

/-- Read a JSON string body after the opening quote, unescaping; returns the
content and the rest after the closing quote. -/
def parseStrChars : List Char → Option (List Char × List Char)
  | [] => none
  | c :: cs =>
    if c = '"' then some ([], cs)
    else if c = '\\' then
      match cs with
      | [] => none
      | e :: cs' =>
        (unescapeChar e).bind fun u =>
          (parseStrChars cs').map fun (s, r) => (u :: s, r)
    else
      (parseStrChars cs).map fun (s, r) => (c :: s, r)
where
  /-- Escape sequences accepted after a backslash (`\uXXXX` is not modelled;
  the serializer never emits it). -/
  unescapeChar : Char → Option Char
  | '\\' => some '\\'
  | '"' => some '"'
  | 'n' => some '\n'
  | '/' => some '/'
  | 't' => some '\t'
  | 'b' => some (Char.ofNat 8)
  | 'r' => some '\r'
  | 'f' => some (Char.ofNat 12)
  | _ => none

/-- Take the maximal leading run of decimal digits. -/
def takeDigits : List Char → (List Char × List Char)
  | [] => ([], [])
  | c :: cs =>
    if isDigitCh c then (c :: (takeDigits cs).1, (takeDigits cs).2)
    else ([], c :: cs)

/-- Read an unsigned integer JSON number (at least one digit).  A following
`.`, `e` or `E` — a fractional or exponential literal — is rejected rather
than misread as an integer (see the note on `Json`). -/
def parseNat (cs : List Char) : Option (Nat × List Char) :=
  match takeDigits cs with
  | ([], _) => none
  | (d :: ds, rest) =>
    match rest with
    | [] => some (digitsVal (d :: ds), [])
    | c :: _ =>
      if c = '.' || c = 'e' || c = 'E' then none else some (digitsVal (d :: ds), rest)

mutual

/-- Read one JSON value. -/
def parseVal : Nat → List Char → Option (Json × List Char)
  | 0, _ => none
  | fuel + 1, cs =>
    match skipWs cs with
    | [] => none
    | c :: rest =>
      if c = 'n' then
        (expectChars ['u', 'l', 'l'] rest).map fun r => (Json.null, r)
      else if c = 't' then
        (expectChars ['r', 'u', 'e'] rest).map fun r => (Json.bool true, r)
      else if c = 'f' then
        (expectChars ['a', 'l', 's', 'e'] rest).map fun r => (Json.bool false, r)
      else if c = '"' then
        (parseStrChars rest).map fun (s, r) => (Json.str (String.mk s), r)
      else if c = '-' then
        (parseNat rest).map fun (n, r) => (Json.num (-(n : Int)), r)
      else if isDigitCh c then
        (parseNat (c :: rest)).map fun (n, r) => (Json.num (n : Int), r)
      else if c = '[' then
        match skipWs rest with
        | [] => none
        | c' :: rest' =>
          if c' = ']' then some (Json.arr [], rest')
          else (parseElems fuel (c' :: rest')).map fun (es, r) => (Json.arr es, r)
      else if c = '{' then
        match skipWs rest with
        | [] => none
        | c' :: rest' =>
          if c' = '}' then some (Json.obj [], rest')
          else (parseFields fuel (c' :: rest')).map fun (fs, r) => (Json.obj fs, r)
      else none

/-- Read a non-empty comma-separated element list and the closing `]`. -/
def parseElems : Nat → List Char → Option (List Json × List Char)
  | 0, _ => none
  | fuel + 1, cs =>
    (parseVal fuel cs).bind fun (v, r) =>
      match skipWs r with
      | ',' :: r' => (parseElems fuel r').map fun (vs, r'') => (v :: vs, r'')
      | ']' :: r' => some ([v], r')
      | _ => none

/-- Read a non-empty comma-separated member list and the closing `}`. -/
def parseFields : Nat → List Char → Option (List (String × Json) × List Char)
  | 0, _ => none
  | fuel + 1, cs =>
    match skipWs cs with
    | '"' :: r =>
      (parseStrChars r).bind fun (k, r₁) =>
        match skipWs r₁ with
        | ':' :: r₂ =>
          (parseVal fuel r₂).bind fun (v, r₃) =>
            match skipWs r₃ with
            | ',' :: r₄ =>
              (parseFields fuel r₄).map fun (fs, r₅) => ((String.mk k, v) :: fs, r₅)
            | '}' :: r₄ => some ([(String.mk k, v)], r₄)
            | _ => none
        | _ => none
    | _ => none

end

/-- The model of `JSON.parse`: read one value, allow trailing whitespace,
require the input to be fully consumed. -/
def JSONparse (s : String) : Option Json :=
  match parseVal (s.data.length + 1) s.data with
  | some (v, rest) => if skipWs rest = [] then some v else none
  | none => none

/-! ## Round-trip: the reader inverts the serializer -/

/-- Suffixes that may legally follow a serialized value inside a larger
serialized document: nothing, or a separator/closer. -/
def sepOk : List Char → Bool
  | [] => true
  | c :: _ => c = ',' || c = ']' || c = '}'

/-- Suffixes after which a maximal digit run ends and is read as an integer. -/
def numBoundary : List Char → Bool
  | [] => true
  | c :: _ => !isDigitCh c && !(c = '.') && !(c = 'e') && !(c = 'E')

/-- The tail after a maximal digit run does not begin with a digit. -/
def headNotDigit : List Char → Bool
  | [] => true
  | c :: _ => !isDigitCh c

/-! ## Base64 and UTF-8 decoding

Model of Node's `Buffer.from(payload, 'base64').toString()`: base64 characters
outside the alphabet (including `=` padding) are skipped, complete groups of
four 6-bit values give three bytes, a trailing group of two or three gives one
or two bytes; the bytes are then UTF-8-decoded with U+FFFD for malformed
sequences (overlong-encoding rejection is not modelled; no verified property
inspects non-ASCII payloads). -/

/-- The 6-bit value of a base64 alphabet character. -/
def b64Val (c : Char) : Option Nat :=
  if 'A' ≤ c ∧ c ≤ 'Z' then some (c.toNat - 65)
  else if 'a' ≤ c ∧ c ≤ 'z' then some (c.toNat - 97 + 26)
  else if '0' ≤ c ∧ c ≤ '9' then some (c.toNat - 48 + 52)
  else if c = '+' then some 62
  else if c = '/' then some 63
  else none

/-- Regroup 6-bit values into bytes. -/
def b64Group : List Nat → List Nat
  | a :: b :: c :: d :: rest =>
    (a * 4 + b / 16) :: ((b % 16) * 16 + c / 4) :: ((c % 4) * 64 + d) :: b64Group rest
  | [a, b] => [a * 4 + b / 16]
  | [a, b, c] => [a * 4 + b / 16, (b % 16) * 16 + c / 4]
  | _ => []

/-- Base64-decode a character list to a byte list. -/
def b64Decode (cs : List Char) : List Nat :=
  b64Group (cs.filterMap b64Val)

/-- Whether a byte is a UTF-8 continuation byte. -/
def isCont (b : Nat) : Bool := 128 ≤ b && b < 192

/-- Fuel-indexed UTF-8 decoder with U+FFFD replacement. -/
def utf8DecodeAux : Nat → List Nat → List Char
  | 0, _ => []
  | _, [] => []
  | fuel + 1, b :: rest =>
    if b < 128 then Char.ofNat b :: utf8DecodeAux fuel rest
    else if 192 ≤ b ∧ b < 224 then
      match rest with
      | b2 :: rest2 =>
        if isCont b2 then Char.ofNat ((b % 32) * 64 + b2 % 64) :: utf8DecodeAux fuel rest2
        else Char.ofNat 0xFFFD :: utf8DecodeAux fuel rest
      | [] => [Char.ofNat 0xFFFD]
    else if 224 ≤ b ∧ b < 240 then
      match rest with
      | b2 :: b3 :: rest3 =>
        if isCont b2 && isCont b3 then
          Char.ofNat ((b % 16) * 4096 + (b2 % 64) * 64 + b3 % 64) :: utf8DecodeAux fuel rest3
        else Char.ofNat 0xFFFD :: utf8DecodeAux fuel rest
      | _ => [Char.ofNat 0xFFFD]
    else if 240 ≤ b ∧ b < 248 then
      match rest with
      | b2 :: b3 :: b4 :: rest4 =>
        if isCont b2 && isCont b3 && isCont b4 then
          Char.ofNat ((b % 8) * 262144 + (b2 % 64) * 4096 + (b3 % 64) * 64 + b4 % 64)
            :: utf8DecodeAux fuel rest4
        else Char.ofNat 0xFFFD :: utf8DecodeAux fuel rest
      | _ => [Char.ofNat 0xFFFD]
    else Char.ofNat 0xFFFD :: utf8DecodeAux fuel rest

/-- UTF-8-decode a byte list (model of `Buffer.prototype.toString`). -/
def utf8Decode (bs : List Nat) : List Char :=
  utf8DecodeAux (bs.length + 1) bs

/-- Model of JavaScript `String.prototype.split(',')`. -/
def splitOnComma : List Char → List (List Char)
  | [] => [[]]
  | c :: rest =>
    if c = ',' then [] :: splitOnComma rest
    else
      match splitOnComma rest with
      | g :: gs => (c :: g) :: gs
      | [] => [[c]]

/-! ## The metadata decoder

`src/retrieve.js` lines 123–138 and `src/get-item.js` lines 80–94 contain the
same four-case decoder for a fetched `tokenURI` blob, duplicated verbatim;
it is modelled once here.  `Except.error` carries the message of the
JavaScript exception that the corresponding branch throws. -/

/-- Case 1 of the decoder: `tokenURI.split(',')[1]` is base64-decoded and
JSON-parsed.  `split(',')[1]` is `undefined` when there is no comma, and
`Buffer.from(undefined, 'base64')` then throws a TypeError. -/
def dataUriDecode (tokenURI : String) : Except String Json :=
  match (splitOnComma tokenURI.data).get? 1 with
  | none => .error "TypeError: argument must be of type string"
  | some payload =>
    match JSONparse (String.mk (utf8Decode (b64Decode payload))) with
    | some m => .ok m
    | none => .error "SyntaxError: unexpected token in JSON"

/-- The four-case metadata decoder applied to a fetched `tokenURI`. -/
def decodeTokenURI (tokenURI : String) : Except String Json :=
  if strStartsWith tokenURI "data:application/json" then
    dataUriDecode tokenURI
  else if strStartsWith tokenURI "\x7b" then
    match JSONparse tokenURI with
    | some m => .ok m
    | none => .error "SyntaxError: unexpected token in JSON"
  else if strStartsWith tokenURI "http" then
    .ok (Json.obj [("uri", Json.str tokenURI)])
  else
    .ok (Json.obj [("raw", Json.str tokenURI)])

/-! ## JavaScript numbers and dynamic values -/

/-- A JavaScript number as far as the client observes it: `NaN`, an infinity,
or an exact rational (binary-float rounding is not modelled). -/
inductive JsNum where
  | nan
  | inf
  | negInf
  | val (q : ℚ)
deriving Repr, DecidableEq

/-- Hexadecimal digit test. -/
def isHexDigitCh (c : Char) : Bool :=
  isDigitCh c || ('a' ≤ c && c ≤ 'f') || ('A' ≤ c && c ≤ 'F')

/-- Value of a digit in an arbitrary radix (hex letters included). -/
def radixVal (c : Char) : Nat :=
  if 'a' ≤ c ∧ c ≤ 'z' then c.toNat - 97 + 10
  else if 'A' ≤ c ∧ c ≤ 'Z' then c.toNat - 65 + 10
  else digitVal c

/-- Radix-prefixed integer literal (`0x…`, `0o…`, `0b…`) as read by
JavaScript `Number()`. -/
def parseRadixNum (base : Nat) (cs : List Char) : JsNum :=
  if cs ≠ [] ∧ cs.all (fun c => radixVal c < base ∧
      (isDigitCh c || ('a' ≤ c && c ≤ 'z') || ('A' ≤ c && c ≤ 'Z'))) then
    .val ((cs.foldl (fun a c => a * base + radixVal c) 0 : Nat) : ℚ)
  else .nan

/-- Decimal literal (optional sign, integer part, fraction, exponent) as read
by JavaScript `Number()`; the whole input must be consumed. -/
def parseDecNum (cs : List Char) : JsNum :=
  let (sgn, cs1) : ℚ × List Char :=
    match cs with
    | '+' :: r => (1, r)
    | '-' :: r => (-1, r)
    | _ => (1, cs)
  let (ip, cs2) := takeDigits cs1
  let (dot, fp, cs3) : Bool × List Char × List Char :=
    match cs2 with
    | '.' :: r =>
      match takeDigits r with
      | (ds, r') => (true, ds, r')
    | _ => (false, [], cs2)
  if ip = [] ∧ (dot = false ∨ fp = []) then .nan
  else
    let mantissa : ℚ := (digitsVal ip : ℚ) + (digitsVal fp : ℚ) / ((10 : ℚ) ^ fp.length)
    match cs3 with
    | [] => .val (sgn * mantissa)
    | e :: r =>
      if e = 'e' ∨ e = 'E' then
        let (esgn, r1) : Int × List Char :=
          match r with
          | '-' :: rs => (-1, rs)
          | '+' :: rs => (1, rs)
          | _ => (1, r)
        match takeDigits r1 with
        | (eds, []) =>
          if eds = [] then .nan
          else .val (sgn * mantissa * (10 : ℚ) ^ (esgn * (digitsVal eds : Int)))
        | _ => .nan
      else .nan

/-- Model of JavaScript `Number(string)` (binary-float rounding is not
modelled; the verified properties use only NaN-ness and sign). -/
def jsStringToNumber (s : String) : JsNum :=
  let t := (trimWs s).data
  if t = [] then .val 0
  else if t = "Infinity".data ∨ t = "+Infinity".data then .inf
  else if t = "-Infinity".data then .negInf
  else
    match t with
    | '0' :: x :: rest =>
      if x = 'x' ∨ x = 'X' then parseRadixNum 16 rest
      else if x = 'o' ∨ x = 'O' then parseRadixNum 8 rest
      else if x = 'b' ∨ x = 'B' then parseRadixNum 2 rest
      else parseDecNum t
    | _ => parseDecNum t

/-- A JavaScript value passed as a `tokenId` argument: absent (`null` or
`undefined`), a number, or a string. -/
inductive JsInput where
  | missing
  | num (n : JsNum)
  | str (s : String)
deriving Repr, DecidableEq

/-- Applying `Number(tokenId)` to a `tokenId` argument.  (`missing` is mapped to `NaN`
although `Number(null) = 0`: every verified path rejects `missing` before the
conversion, exactly as the source checks `=== null || === undefined` first.) -/
def inputToNumber : JsInput → JsNum
  | .missing => .nan
  | .num n => n
  | .str s => jsStringToNumber s

/-- Test `isNaN` on a JavaScript number. -/
def jsIsNaN : JsNum → Bool
  | .nan => true
  | _ => false

/-- Test `n < 0` on a JavaScript number (`NaN < 0` is false). -/
def jsLtZero : JsNum → Bool
  | .nan => false
  | .inf => false
  | .negInf => true
  | .val q => decide (q < 0)

/-- Digit string of a JavaScript number (`toString`); decimal formatting of
non-integral rationals is not modelled exactly (no verified property inspects
it). -/
def jsNumToString : JsNum → String
  | .nan => "NaN"
  | .inf => "Infinity"
  | .negInf => "-Infinity"
  | .val q => if q.den = 1 then intToStr q.num else intToStr q.num ++ "/" ++ natToStr q.den

/-- String interpolation of a `tokenId` argument. -/
def jsInputToString : JsInput → String
  | .missing => "null"
  | .num n => jsNumToString n
  | .str s => s

/-- Model of `ethers.isAddress`: `0x` followed by exactly 40 hexadecimal
digits.  (The EIP-55 mixed-case checksum test — a keccak256 computation — is
not modelled; the modelled predicate is the one ethers applies to
case-uniform addresses, which are the only ones the theorems below use.) -/
def isAddress (s : String) : Bool :=
  strStartsWith s "0x" && s.data.length = 42 && (s.data.drop 2).all isHexDigitCh

/-- JavaScript truthiness of a JSON value. -/
def jsTruthy : Json → Bool
  | .null => false
  | .bool b => b
  | .num n => n != 0
  | .str s => s != ""
  | .arr _ => true
  | .obj _ => true

/-- First binding of a key in a member list (JavaScript property access on an
object built by `JSON.parse`; a runtime object cannot hold duplicate keys). -/
def lookupField : List (String × Json) → String → Option Json
  | [], _ => none
  | (k', v') :: fs, k => if k' = k then some v' else lookupField fs k

/-- JavaScript property access `v[k]` on a decoded JSON value (`undefined`,
i.e. `none`, on non-objects). -/
def jsProp (v : Json) (k : String) : Option Json :=
  match v with
  | .obj fs => lookupField fs k
  | _ => none

/-- JavaScript `a.k || d`: the property if present and truthy, else `d`. -/
def jsOr (o : Option Json) (d : Json) : Json :=
  match o with
  | some v => if jsTruthy v then v else d
  | none => d

/-- Lower-casing (JavaScript `String.prototype.toLowerCase`; ASCII suffices
for hexadecimal addresses). -/
def jsToLower (s : String) : String := String.mk (s.data.map Char.toLower)

/-! ## The ledger oracle and shared configuration resolution

The contract is reached through ethers.js read calls.  For one client call the
remote contract state is a fixed oracle: `none` models a call that throws
(reverted call, nonexistent token, unsupported method, RPC failure), `some`
models a returned value. -/

/-- Read interface of the deployed contract, as used by the client
(the ABIs of `retrieve.js`, `get-item.js` and `verify-owner`). -/
structure Ledger where
  /-- Read `balanceOf(owner)` — token count held by an address. -/
  balanceOf : String → Option Nat
  /-- Read `tokenOfOwnerByIndex(owner, index)` — ERC-721 Enumerable lookup. -/
  tokenOfOwnerByIndex : String → Nat → Option Nat
  /-- Read `tokenURI(tokenId)` — metadata blob of a token. -/
  tokenURI : JsNum → Option String
  /-- Read `ownerOf(tokenId)` — current owner of a token. -/
  ownerOf : JsNum → Option String
  /-- Read `totalSupply()` — total number of tokens issued. -/
  totalSupply : Option Nat

/-- Environment of a read-only client call: the contents of
`deployment.json` (`none` = the file is missing or unreadable, `some none` =
it parses but carries no usable `contractAddress` field) and the ledger. -/
structure QueryEnv where
  deployment : Option (Option String)
  ledger : Ledger

/-- The optional `config` argument of the read-only entry points. -/
structure QueryConfig where
  contractAddress : Option String := none
  rpcUrl : Option String := none

/-- Errors thrown by the read-only entry points, one constructor per `throw`
site (the constructor records the message of the `new Error`). -/
inductive ClientErr where
  /-- Message `'Invalid wallet address'` -/
  | invalidWallet
  /-- Message `'Token ID is required'` -/
  | tokenIdRequired
  /-- Message `'Token ID must be a valid number'` -/
  | tokenIdInvalid
  /-- Message `'Contract address not provided and deployment.json not found'` -/
  | contractNotProvided
  /-- Message `'Invalid contract address'` -/
  | invalidContract
  /-- Message `` `Token ID ${tokenId} does not exist or has been burned` `` -/
  | tokenNotFound (tokenIdStr : String)
  /-- Message `` `Failed to retrieve tokens: ...` `` -/
  | retrieveFailed
deriving Repr, DecidableEq

/-- JavaScript falsiness of an optional string (`undefined` or `''`). -/
def jsFalsyOptStr : Option String → Bool
  | none => true
  | some s => s = ""

/-- Contract-address resolution, identical in `mint.js`, `retrieve.js`,
`get-item.js` and `verify-owner`: an explicit `config.contractAddress` wins;
otherwise `deployment.json` is read (throwing if unreadable); the resolved
value must be a well-formed address. -/
def resolveContract (deployment : Option (Option String))
    (cfgAddr : Option String) : Except ClientErr String := do
  let resolved : Option String ←
    if jsFalsyOptStr cfgAddr then
      match deployment with
      | none => throw .contractNotProvided
      | some d => pure d
    else pure cfgAddr
  match resolved with
  | some c => if c = "" ∨ isAddress c = false then throw .invalidContract else pure c
  | none => throw .invalidContract

/-- Validation of `tokenId`, duplicated verbatim in `get-item.js` lines 21–28 and
`verify-owner` lines 28–35: reject `null`/`undefined`, then reject when
`Number(tokenId)` is `NaN` or negative; everything else — including `0` and
non-integers — passes and the converted number is used downstream. -/
def validateTokenId (tokenId : JsInput) : Except ClientErr JsNum :=
  match tokenId with
  | .missing => .error .tokenIdRequired
  | t =>
    let n := inputToNumber t
    if jsIsNaN n || jsLtZero n then .error .tokenIdInvalid else .ok n

/-! ## `getItem` (src/get-item.js) -/

/-- Result object of `getItem`.  The `name`/`description`/`image` fields are
dynamic JavaScript values (`metadata.name` need not be a string). -/
structure ItemView where
  tokenId : String
  owner : String
  metadata : Option Json
  traits : Json
  name : Json
  description : Json
  image : Json
  contractAddress : String
deriving Repr

/-- Model of `getItem(tokenId, config)`: validate the token id, resolve the contract,
read `ownerOf` (a failure is reported as the dedicated does-not-exist-or-
burned error), then best-effort-decode `tokenURI` metadata — a metadata
failure leaves `metadata: null` and the field defaults, never throws. -/
def getItem (env : QueryEnv) (tokenId : JsInput) (config : QueryConfig) :
    Except ClientErr ItemView := do
  let tokenIdNumber ← validateTokenId tokenId
  let contractAddress ← resolveContract env.deployment config.contractAddress
  let owner ←
    match env.ledger.ownerOf tokenIdNumber with
    | some o => pure o
    | none => throw (.tokenNotFound (jsInputToString tokenId))
  -- metadata block: defaults, overwritten only on successful decode
  let (metadata, traits, name, description, image) :
      Option Json × Json × Json × Json × Json :=
    match env.ledger.tokenURI tokenIdNumber with
    | none => (none, Json.obj [], Json.str "", Json.str "", Json.str "")
    | some uri =>
      match decodeTokenURI uri with
      | .error _ => (none, Json.obj [], Json.str "", Json.str "", Json.str "")
      | .ok m =>
        (some m,
         jsOr (jsProp m "traits") (Json.obj []),
         jsOr (jsProp m "name") (Json.str ("Item #" ++ jsInputToString tokenId)),
         jsOr (jsProp m "description") (Json.str ""),
         jsOr (jsProp m "image") (Json.str ""))
  pure {
    tokenId := jsNumToString tokenIdNumber
    owner := owner
    metadata := metadata
    traits := traits
    name := name
    description := description
    image := image
    contractAddress := contractAddress }

/-! ## `verifyOwner` (src/unnamed/part_002) -/

/-- Result object of `verifyOwner`. -/
structure VerifyView where
  isOwner : Bool
  walletAddress : String
  actualOwner : String
  tokenId : String
  contractAddress : String
deriving Repr

/-- Model of `verifyOwner(walletAddress, tokenId, config)`: validate the wallet and
token id, resolve the contract, read `ownerOf` (failure → the dedicated
does-not-exist-or-burned error), then compare both addresses lower-cased. -/
def verifyOwner (env : QueryEnv) (walletAddress : String) (tokenId : JsInput)
    (config : QueryConfig) : Except ClientErr VerifyView := do
  if walletAddress = "" ∨ isAddress walletAddress = false then
    throw .invalidWallet
  let tokenIdNumber ← validateTokenId tokenId
  let contractAddress ← resolveContract env.deployment config.contractAddress
  let actualOwner ←
    match env.ledger.ownerOf tokenIdNumber with
    | some o => pure o
    | none => throw (.tokenNotFound (jsInputToString tokenId))
  let normalizedWalletAddress := jsToLower walletAddress
  let normalizedActualOwner := jsToLower actualOwner
  let isOwner := normalizedWalletAddress = normalizedActualOwner
  pure {
    isOwner := isOwner
    walletAddress := walletAddress
    actualOwner := actualOwner
    tokenId := jsNumToString tokenIdNumber
    contractAddress := contractAddress }

/-! ## `retrieve` (src/retrieve.js) -/

/-- One element of the list returned by `retrieve`.  Error items (metadata
fetch/decode failure) carry `metadata: null` and an error string; the
remaining fields then keep their absent-in-JavaScript defaults. -/
structure Item where
  tokenId : String
  metadata : Option Json
  traits : Json := Json.obj []
  name : Json := Json.str ""
  description : Json := Json.str ""
  image : Json := Json.str ""
  error : Option String := none
deriving Repr

/-- Metadata fetch and decode for one discovered token id (the body of the
`for (const tokenId of tokenIds)` loop, lines 119–157 of `retrieve.js`):
any throw inside the loop body is caught and yields an error item. -/
def fetchOne (led : Ledger) (sid : String) : Item :=
  match led.tokenURI (jsStringToNumber sid) with
  | none => { tokenId := sid, metadata := none, error := some "tokenURI reverted" }
  | some uri =>
    match decodeTokenURI uri with
    | .error e => { tokenId := sid, metadata := none, error := some e }
    | .ok m =>
      { tokenId := sid
        metadata := some m
        traits := jsOr (jsProp m "traits") (Json.obj [])
        name := jsOr (jsProp m "name") (Json.str ("Item #" ++ sid))
        description := jsOr (jsProp m "description") (Json.str "")
        image := jsOr (jsProp m "image") (Json.str "")
        error := none }

/-- The indexed (ERC-721 Enumerable) discovery loop, lines 74–84:
`tokenOfOwnerByIndex` for indices `i, i+1, …` while `count` remain; the first
failing index aborts the whole strategy (`none`). -/
def indexedLoop (led : Ledger) (w : String) : Nat → Nat → Option (List Nat)
  | _, 0 => some []
  | i, count + 1 =>
    match led.tokenOfOwnerByIndex w i with
    | some tid => (indexedLoop led w (i + 1) count).map (tid :: ·)
    | none => none

/-- Owner test for one candidate id in the scan strategy (lines 99–107):
an `ownerOf` failure is skipped silently, an owner is compared lower-cased. -/
def scanStep (led : Ledger) (w : String) (tokenId : Nat) : Bool :=
  match led.ownerOf (.val (tokenId : ℚ)) with
  | some owner => jsToLower owner = jsToLower w
  | none => false

/-- The scan discovery strategy (lines 92–108): every id from 1 to
`totalSupply`, keeping those whose owner matches. -/
def scanTokens (led : Ledger) (w : String) (total : Nat) : List Nat :=
  (List.range' 1 total).filter (scanStep led w)

/-- The scan fallback path of `retrieve` (lines 90–114): read `totalSupply`
(its failure aborts the whole call), scan, then fetch metadata per token. -/
def scanRetrieve (led : Ledger) (w : String) : Except ClientErr (List Item) :=
  match led.totalSupply with
  | none => .error .retrieveFailed
  | some total => .ok (((scanTokens led w total).map natToStr).map (fetchOne led))

/-- Model of `retrieve(walletAddress, config)`: validate the wallet, resolve the
contract, try the indexed strategy (zero balance returns `[]` immediately;
a failed balance read or any failed per-index read discards the partial
result and falls back to the scan strategy), then fetch metadata per token. -/
def retrieve (env : QueryEnv) (walletAddress : String) (config : QueryConfig) :
    Except ClientErr (List Item) := do
  if walletAddress = "" ∨ isAddress walletAddress = false then
    throw .invalidWallet
  let _contractAddress ← resolveContract env.deployment config.contractAddress
  match env.ledger.balanceOf walletAddress with
  | some balance =>
    if balance = 0 then pure []
    else
      match indexedLoop env.ledger walletAddress 0 balance with
      | some ids => pure ((ids.map natToStr).map (fetchOne env.ledger))
      | none => scanRetrieve env.ledger walletAddress
  | none => scanRetrieve env.ledger walletAddress

/-! ## `mint` (src/mint.js) -/

/-- The three candidate write entry points of the contract ABI, in the order
`mint.js` tries them. -/
inductive EntryPoint where
  | mintFn
  | safeMintFn
  | mintWithMetadataFn
deriving Repr, DecidableEq

/-- Outcome of the `fetch(imageUrl, { method: 'HEAD' })` probe:
`ok contentType` models a response (`contentType` is the `content-type`
header, absent as `none`), `err msg` models a rejected fetch with error
message `msg`. -/
inductive FetchOutcome where
  | ok (contentType : Option String)
  | err (msg : String)
deriving Repr

/-- A parsed receipt log as returned by `contract.interface.parseLog`:
the event name and the `args.tokenId` field (`none` when absent). -/
structure TransferParse where
  name : String
  tokenId : Option Int
deriving Repr

/-- A transaction receipt: block number and emitted logs (`none` models a
falsy `receipt.logs`; ethers always returns an array, possibly empty). -/
structure Receipt where
  blockNumber : Nat
  logs : Option (List Nat)
deriving Repr

/-- Environment of one `mint` call: the `fetch` probe (absent on Node < 18),
the two credential files, and the contract-side oracles. -/
structure MintEnv where
  /-- Value `none` when `typeof fetch === 'undefined'`. -/
  fetch : Option FetchOutcome
  /-- Parsed `contractAddress` from `deployment.json` (as in `QueryEnv`). -/
  deployment : Option (Option String)
  /-- Contents of `polygon_private_key.txt` (`none` = unreadable). -/
  keyFile : Option String
  /-- Submission of a write through one entry point, with the destination and
  metadata JSON as sent; errors carry the thrown message. -/
  submit : EntryPoint → String → String → Except String String
  /-- Call `tx.wait()`: the receipt, or the throw on revert/failure. -/
  txWait : Except String Receipt
  /-- Call `contract.interface.parseLog` on one log entry (`none` = throws or
  yields no description). -/
  parseLogFn : Nat → Option TransferParse
  /-- Read `totalSupply()` used by the token-id fallback. -/
  totalSupply : Option Nat
deriving Inhabited

/-- The optional `config` argument of `mint`. -/
structure MintConfig where
  contractAddress : Option String := none
  privateKey : Option String := none
  rpcUrl : Option String := none
deriving Repr

/-- Errors thrown by `mint`, one constructor per throw site. -/
inductive MintErr where
  /-- Message `'Invalid destination address'` -/
  | invalidDestination
  /-- Message `'Image URL is required'` -/
  | imageUrlRequired
  /-- Message `'URL does not point to an image'` (thrown inside the probe `try`,
  rethrown by its `catch`). -/
  | imageNotImage
  /-- A fetch-probe error whose message mentions neither `fetch` nor
  `undefined`, rethrown as-is. -/
  | fetchRethrown (msg : String)
  /-- Message `'Traits must be a valid object'` -/
  | invalidTraits
  /-- Message `'Contract address not provided and deployment.json not found'` -/
  | contractNotProvided
  /-- Message `'Invalid contract address'` -/
  | invalidContract
  /-- Message `'Private key not provided and polygon_private_key.txt not found'` -/
  | privateKeyMissing
  /-- Message `'Invalid private key format'` -/
  | invalidPrivateKey
  /-- Message `` `Minting failed. Tried mint, safeMint, and mintWithMetadata.
  Original error: ${error.message}` `` — carries the message interpolated
  into the template, which is the error of the FIRST candidate. -/
  | mintEntryPointNotFound (originalError : String)
  /-- A throw out of `tx.wait()` (reverted transaction), propagated. -/
  | txWaitFailed (msg : String)
  /-- The `TypeError` thrown by `contract.interface.parseLog(undefined)` when
  `receipt.logs.find(...)` finds no parseable Transfer event. -/
  | parseLogOfUndefined
deriving Repr, DecidableEq

/-- The errors thrown by the input-validation phase of `mint` (spec §4.4
step 1, `ValidationError`). -/
def MintErr.isValidation : MintErr → Bool
  | .invalidDestination => true
  | .imageUrlRequired => true
  | .imageNotImage => true
  | .fetchRethrown _ => true
  | .invalidTraits => true
  | _ => false

/-- Result object of a successful `mint`. -/
structure MintResult where
  success : Bool
  transactionHash : String
  blockNumber : Nat
  tokenId : Option String
  destinationAddress : String
  imageUrl : String
  traits : Json
deriving Repr

/-- The metadata object built by `mint.js` lines 118–123: caller traits plus
derived `name`/`description`/`image` (JavaScript `||` defaults). -/
def mintMetadata (imageUrl : String) (traits : Json) : Json :=
  Json.obj [
    ("name", jsOr (jsProp traits "name") (Json.str "Game Item")),
    ("description", jsOr (jsProp traits "description") (Json.str "A game item NFT")),
    ("image", Json.str imageUrl),
    ("traits", traits)]

/-- The `JSON.stringify` of the metadata object (line 126). -/
def mintMetadataJson (imageUrl : String) (traits : Json) : String :=
  String.mk (serJson (mintMetadata imageUrl traits))

/-- The image-probe block, `mint.js` lines 42–61: with `fetch` available a
HEAD request must report an `image/*` content type (any other probe error
whose message does not mention `fetch`/`undefined` is rethrown); without
`fetch` the block does nothing but log. -/
def imageProbe (fetch : Option FetchOutcome) : Except MintErr Unit :=
  match fetch with
  | none => .ok ()
  | some (.ok ct) =>
    match ct with
    | none => .error .imageNotImage
    | some c => if strStartsWith c "image/" then .ok () else .error .imageNotImage
  | some (.err m) =>
    if containsSub m "fetch" || containsSub m "undefined" then .ok ()
    else .error (.fetchRethrown m)

/-- Test `typeof traits === 'object'` (JavaScript: arrays and `null` included). -/
def isObjectType : Json → Bool
  | .obj _ => true
  | .arr _ => true
  | .null => true
  | _ => false

/-- The entry-point cascade, `mint.js` lines 131–150: try `mint`, then
`safeMint`, then `mintWithMetadata`; the failure template interpolates
`error.message` — the error of the first candidate. -/
def attemptMint (submit : EntryPoint → String → String → Except String String)
    (dest metadataJson : String) : Except MintErr String :=
  match submit .mintFn dest metadataJson with
  | .ok tx => .ok tx
  | .error e1 =>
    match submit .safeMintFn dest metadataJson with
    | .ok tx => .ok tx
    | .error _e2 =>
      match submit .mintWithMetadataFn dest metadataJson with
      | .ok tx => .ok tx
      | .error _e3 => .error (.mintEntryPointNotFound e1)

/-- Token-id extraction from the receipt, `mint.js` lines 158–173: find a log
that parses to a `Transfer` event.  When no log qualifies, `find` yields
`undefined` and the outer `contract.interface.parseLog(undefined)` throws a
`TypeError`; when one qualifies, a truthy (present, non-zero) `args.tokenId`
is used. -/
def extractTokenId (parseLogFn : Nat → Option TransferParse)
    (logs : Option (List Nat)) : Except MintErr (Option String) :=
  match logs with
  | none => .ok none
  | some ls =>
    match ls.find? (fun log =>
        match parseLogFn log with
        | some ev => ev.name = "Transfer"
        | none => false) with
    | none => .error .parseLogOfUndefined
    | some log =>
      match parseLogFn log with
      | none => .error .parseLogOfUndefined
      | some ev =>
        .ok (match ev.tokenId with
          | some t => if t ≠ 0 then some (intToStr t) else none
          | none => none)

/-- Model of `mint(destinationAddress, imageUrl, traits, config)`, `src/mint.js`.
`imageUrl` is `none` when the caller passes a non-string value. -/
def mint (env : MintEnv) (destinationAddress : String) (imageUrl : Option String)
    (traits : Json) (config : MintConfig) : Except MintErr MintResult := do
  -- validation (lines 31–65)
  if destinationAddress = "" ∨ isAddress destinationAddress = false then
    throw .invalidDestination
  let imageUrl ←
    match imageUrl with
    | none => throw .imageUrlRequired
    | some u => if u = "" then throw .imageUrlRequired else pure u
  imageProbe env.fetch
  if jsTruthy traits = false ∨ isObjectType traits = false then
    throw .invalidTraits
  -- configuration (lines 67–100)
  let _contractAddress ←
    match resolveContract env.deployment config.contractAddress with
    | .ok c => pure c
    | .error .contractNotProvided => throw .contractNotProvided
    | .error _ => throw .invalidContract
  let privateKey ←
    if jsFalsyOptStr config.privateKey then
      match env.keyFile with
      | none => throw .privateKeyMissing
      | some raw =>
        let k := trimWs raw
        pure (if strStartsWith k "0x" then k else "0x" ++ k)
    else pure (config.privateKey.getD "")
  if privateKey = "" ∨ strStartsWith privateKey "0x" = false then
    throw .invalidPrivateKey
  -- metadata (lines 117–126) and submission cascade (lines 131–150)
  let metadataJson := mintMetadataJson imageUrl traits
  let txHash ← attemptMint env.submit destinationAddress metadataJson
  -- confirmation (line 156)
  let receipt ←
    match env.txWait with
    | .ok r => pure r
    | .error m => throw (.txWaitFailed m)
  -- token-id extraction (lines 158–183)
  let tokenIdFromEvent ← extractTokenId env.parseLogFn receipt.logs
  let tokenId : Option String :=
    match tokenIdFromEvent with
    | some s => some s
    | none =>
      match env.totalSupply with
      | some n => some (intToStr ((n : Int) - 1))
      | none => none
  pure {
    success := true
    transactionHash := txHash
    blockNumber := receipt.blockNumber
    tokenId := tokenId
    destinationAddress := destinationAddress
    imageUrl := imageUrl
    traits := traits }

/-! ## Concrete fixtures used by witnesses and counterexamples -/

/-- A well-formed wallet address (lower-case). -/
def addrX : String := "0x00000000000000000000000000000000000000aa"

/-- The same wallet address with upper-case hexadecimal letters. -/
def addrXUp : String := "0x00000000000000000000000000000000000000AA"

/-- A second, different well-formed address. -/
def addrY : String := "0x00000000000000000000000000000000000000bb"

/-- A well-formed contract address. -/
def contractC : String := "0x00000000000000000000000000000000000000cc"

/-- Query configuration naming `contractC` explicitly. -/
def qcfg : QueryConfig := { contractAddress := some contractC }

/-- Mint configuration naming `contractC` and a private key explicitly. -/
def mcfg : MintConfig := { contractAddress := some contractC, privateKey := some "0xabc" }

/-- A submission oracle on which every candidate entry point throws, each
with a distinct message. -/
def submitAllFail : EntryPoint → String → String → Except String String :=
  fun ep _ _ => .error (match ep with
    | .mintFn => "mint rejected"
    | .safeMintFn => "safeMint rejected"
    | .mintWithMetadataFn => "mintWithMetadata rejected")

/-- A submission oracle on which only `safeMint` is accepted. -/
def submitSafeOnly : EntryPoint → String → String → Except String String :=
  fun ep _ _ =>
    match ep with
    | .mintFn => .error "mint rejected"
    | .safeMintFn => .ok "0xTXHASH"
    | .mintWithMetadataFn => .error "mintWithMetadata rejected"

/-- Mint environment without `fetch` whose submission cascade fails. -/
def envNoFetch : MintEnv := {
  fetch := none
  deployment := some (some contractC)
  keyFile := none
  submit := submitAllFail
  txWait := .error "unreached"
  parseLogFn := fun _ => none
  totalSupply := none }

/-- Mint environment whose write succeeds and whose receipt carries an empty
log array — no Transfer event to find. -/
def envEmptyLogs : MintEnv := {
  fetch := none
  deployment := some (some contractC)
  keyFile := none
  submit := fun ep _ _ =>
    match ep with
    | .mintFn => .ok "0xTXHASH"
    | _ => .error "unreached"
  txWait := .ok { blockNumber := 7, logs := some [] }
  parseLogFn := fun _ => none
  totalSupply := some 5 }

/-- Like `envEmptyLogs` but with a falsy `receipt.logs`, the branch in which
the totalSupply − 1 fallback is reachable. -/
def envNoLogs : MintEnv := {
  fetch := none
  deployment := some (some contractC)
  keyFile := none
  submit := fun ep _ _ =>
    match ep with
    | .mintFn => .ok "0xTXHASH"
    | _ => .error "unreached"
  txWait := .ok { blockNumber := 7, logs := none }
  parseLogFn := fun _ => none
  totalSupply := some 5 }

/-- Scenario ledger: total supply 5, `addrX` owns exactly tokens 2 and 4,
the Enumerable extension is unsupported (`balanceOf` throws). -/
def scanLed : Ledger := {
  balanceOf := fun _ => none
  tokenOfOwnerByIndex := fun _ _ => none
  tokenURI := fun _ => none
  ownerOf := fun n =>
    if n = .val 2 ∨ n = .val 4 then some addrXUp
    else if n = .val 1 ∨ n = .val 3 ∨ n = .val 5 then some addrY
    else none
  totalSupply := some 5 }

/-- Query environment over `scanLed`. -/
def scanEnv : QueryEnv := { deployment := some (some contractC), ledger := scanLed }

/-- Ledger whose indexed discovery succeeds at index 0 and fails at index 1
of a reported balance of 3 (scan data as in `scanLed`). -/
def idxLed : Ledger := {
  balanceOf := fun _ => some 3
  tokenOfOwnerByIndex := fun _ i => if i = 0 then some 7 else none
  tokenURI := fun _ => none
  ownerOf := scanLed.ownerOf
  totalSupply := some 5 }

/-- Query environment over `idxLed`. -/
def idxEnv : QueryEnv := { deployment := some (some contractC), ledger := idxLed }

/-- Ledger on which every `ownerOf` read throws (no token exists). -/
def noTokenLed : Ledger := {
  balanceOf := fun _ => none
  tokenOfOwnerByIndex := fun _ _ => none
  tokenURI := fun _ => none
  ownerOf := fun _ => none
  totalSupply := none }

/-- Query environment over `noTokenLed`. -/
def noTokenEnv : QueryEnv := { deployment := some (some contractC), ledger := noTokenLed }

/-- Ledger on which token 3 exists and is owned by `addrXUp`. -/
def ownedLed : Ledger := {
  balanceOf := fun _ => none
  tokenOfOwnerByIndex := fun _ _ => none
  tokenURI := fun _ => none
  ownerOf := fun n => if n = .val 3 then some addrXUp else none
  totalSupply := some 5 }

/-- Query environment over `ownedLed`. -/
def ownedEnv : QueryEnv := { deployment := some (some contractC), ledger := ownedLed }

/-! ## Theorems -/

theorem digitVal_digitCh {n : Nat} (h : n < 10) : digitVal (digitCh n) = n := by
  interval_cases n <;> rfl

theorem isDigitCh_digitCh {n : Nat} (h : n < 10) : isDigitCh (digitCh n) = true := by
  interval_cases n <;> rfl

theorem digitsVal_append (l₁ l₂ : List Char) :
    (l₁ ++ l₂).foldl (fun a c => a * 10 + digitVal c) a
      = l₂.foldl (fun a c => a * 10 + digitVal c)
          (l₁.foldl (fun a c => a * 10 + digitVal c) a) := by
  exact List.foldl_append ..

theorem natToCharsFuel_extra (n : Nat) : ∀ f₁ f₂ : Nat, n < f₁ → n < f₂ →
    natToCharsFuel f₁ n = natToCharsFuel f₂ n := by
  induction n using Nat.strong_induction_on with
  | _ n ih =>
    intro f₁ f₂ h₁ h₂
    cases f₁ with
    | zero => omega
    | succ k₁ =>
      cases f₂ with
      | zero => omega
      | succ k₂ =>
        rw [natToCharsFuel, natToCharsFuel]
        by_cases h : n < 10
        · rw [if_pos h, if_pos h]
        · rw [if_neg h, if_neg h]
          have hd : n / 10 < n := Nat.div_lt_self (by omega) (by omega)
          rw [ih (n / 10) hd k₁ k₂ (by omega) (by omega)]

/-- Unfolding equation of `natToChars` in terms of itself. -/
theorem natToChars_eq (n : Nat) :
    natToChars n = if n < 10 then [digitCh n]
      else natToChars (n / 10) ++ [digitCh (n % 10)] := by
  show natToCharsFuel (n + 1) n = _
  rw [natToCharsFuel]
  by_cases h : n < 10
  · rw [if_pos h, if_pos h]
  · rw [if_neg h, if_neg h]
    have hd : n / 10 < n := Nat.div_lt_self (by omega) (by omega)
    rw [natToCharsFuel_extra (n / 10) n (n / 10 + 1) (by omega) (by omega)]
    rfl

theorem natToChars_ne_nil (n : Nat) : natToChars n ≠ [] := by
  rw [natToChars_eq]
  split <;> simp

theorem natToChars_all_digits (n : Nat) : ∀ c ∈ natToChars n, isDigitCh c = true := by
  induction n using Nat.strong_induction_on with
  | _ n ih =>
    rw [natToChars_eq]
    split
    · next h => intro c hc; simp at hc; subst hc; exact isDigitCh_digitCh h
    · next h =>
      intro c hc
      simp only [List.mem_append, List.mem_singleton] at hc
      rcases hc with hc | hc
      · exact ih (n / 10) (Nat.div_lt_self (by omega) (by omega)) c hc
      · subst hc; exact isDigitCh_digitCh (Nat.mod_lt _ (by omega))

theorem digitsVal_natToChars (n : Nat) : digitsVal (natToChars n) = n := by
  induction n using Nat.strong_induction_on with
  | _ n ih =>
    rw [natToChars_eq]
    split
    · next h => simp [digitsVal, digitVal_digitCh h]
    · next h =>
      have hd : n / 10 < n := Nat.div_lt_self (by omega) (by omega)
      unfold digitsVal
      rw [digitsVal_append]
      have := ih (n / 10) hd
      unfold digitsVal at this
      rw [this]
      simp only [List.foldl_cons, List.foldl_nil, digitVal_digitCh (Nat.mod_lt n (by omega))]
      omega

theorem jsizeV_pos (v : Json) : 1 ≤ jsizeV v := by
  cases v <;> simp [jsizeV]

theorem skipWs_cons_of_not_ws {c : Char} {cs : List Char} (h : isWsChar c = false) :
    skipWs (c :: cs) = c :: cs := by
  simp [skipWs, h]

theorem expectChars_append (p r : List Char) : expectChars p (p ++ r) = some r := by
  induction p with
  | nil => rfl
  | cons c cs ih => simp [expectChars, ih]

theorem parseStrChars_escape (l rest : List Char) :
    parseStrChars (escapeChars l ++ '"' :: rest) = some (l, rest) := by
  induction l with
  | nil =>
    rw [show escapeChars [] ++ '"' :: rest = '"' :: rest from rfl, parseStrChars.eq_def]
    simp
  | cons c cs ih =>
    by_cases hq : c = '"'
    · subst hq
      rw [show escapeChars ('"' :: cs) ++ '"' :: rest
          = '\\' :: '"' :: (escapeChars cs ++ '"' :: rest) by simp [escapeChars],
        parseStrChars.eq_def]
      simp [parseStrChars.unescapeChar, ih]
    · by_cases hb : c = '\\'
      · subst hb
        rw [show escapeChars ('\\' :: cs) ++ '"' :: rest
            = '\\' :: '\\' :: (escapeChars cs ++ '"' :: rest) by simp [escapeChars],
          parseStrChars.eq_def]
        simp [parseStrChars.unescapeChar, ih]
      · rw [show escapeChars (c :: cs) ++ '"' :: rest
            = c :: (escapeChars cs ++ '"' :: rest) by simp [escapeChars, hq, hb],
          parseStrChars.eq_def]
        simp only [if_neg hq, if_neg hb, ih, Option.map_some']

theorem digit_facts {c : Char} (h : isDigitCh c = true) :
    isWsChar c = false ∧ c ≠ 'n' ∧ c ≠ 't' ∧ c ≠ 'f' ∧ c ≠ '"' ∧ c ≠ '-' ∧
    c ≠ '[' ∧ c ≠ '{' ∧ c ≠ ']' ∧ c ≠ '}' ∧ c ≠ ',' ∧ c ≠ ':' := by
  simp only [isDigitCh, Bool.or_eq_true, decide_eq_true_eq, or_assoc] at h
  rcases h with rfl | rfl | rfl | rfl | rfl | rfl | rfl | rfl | rfl | rfl <;> decide

theorem natToChars_cons (n : Nat) :
    ∃ c cs, natToChars n = c :: cs ∧ isDigitCh c = true := by
  cases h : natToChars n with
  | nil => exact absurd h (natToChars_ne_nil n)
  | cons c cs =>
    exact ⟨c, cs, rfl, natToChars_all_digits n c (h ▸ List.mem_cons_self c cs)⟩

theorem takeDigits_append {ds rest : List Char}
    (hd : ∀ c ∈ ds, isDigitCh c = true)
    (hr : headNotDigit rest = true) :
    takeDigits (ds ++ rest) = (ds, rest) := by
  induction ds with
  | nil =>
    cases rest with
    | nil => rfl
    | cons c cs =>
      simp only [headNotDigit, Bool.not_eq_true'] at hr
      rw [List.nil_append, takeDigits.eq_def]
      simp [hr]
  | cons d ds ih =>
    have hdd : isDigitCh d = true := hd d (List.mem_cons_self d ds)
    have ih' := ih fun c hc => hd c (List.mem_cons_of_mem d hc)
    rw [List.cons_append, takeDigits.eq_def]
    simp [hdd, ih']

theorem sepOk_numBoundary {rest : List Char} (h : sepOk rest = true) :
    numBoundary rest = true := by
  cases rest with
  | nil => rfl
  | cons c cs =>
    simp only [sepOk, Bool.or_eq_true, decide_eq_true_eq, or_assoc] at h
    rcases h with rfl | rfl | rfl <;> simp [numBoundary, isDigitCh]

theorem sepOk_skipWs {rest : List Char} (h : sepOk rest = true) :
    skipWs rest = rest := by
  cases rest with
  | nil => rfl
  | cons c cs =>
    simp only [sepOk, Bool.or_eq_true, decide_eq_true_eq, or_assoc] at h
    rcases h with rfl | rfl | rfl <;> simp [skipWs, isWsChar]

theorem parseNat_natToChars (n : Nat) {rest : List Char}
    (h : numBoundary rest = true) :
    parseNat (natToChars n ++ rest) = some (n, rest) := by
  have hhead : headNotDigit rest = true := by
    cases rest with
    | nil => rfl
    | cons c cs =>
      simp only [numBoundary, Bool.and_eq_true, Bool.not_eq_true'] at h
      simp [headNotDigit, h.1.1.1]
  have htake := takeDigits_append (natToChars_all_digits n) hhead
  obtain ⟨c0, cs0, hcc, -⟩ := natToChars_cons n
  rw [parseNat.eq_def, htake, hcc]
  cases rest with
  | nil =>
    show some (digitsVal (c0 :: cs0), ([] : List Char)) = some (n, [])
    rw [← hcc, digitsVal_natToChars]
  | cons c cs =>
    simp only [numBoundary, Bool.and_eq_true, Bool.not_eq_true'] at h
    obtain ⟨⟨⟨-, h1⟩, h2⟩, h3⟩ := h
    have h1' : ¬c = '.' := by simpa using h1
    have h2' : ¬c = 'e' := by simpa using h2
    have h3' : ¬c = 'E' := by simpa using h3
    show (if c = '.' || c = 'e' || c = 'E' then none
        else some (digitsVal (c0 :: cs0), c :: cs)) = some (n, c :: cs)
    rw [if_neg (by simp [h1', h2', h3']), ← hcc, digitsVal_natToChars]

/-- Head shape of every serialized value: a non-whitespace character that is
not a separator or closer. -/
theorem serJson_cons (v : Json) :
    ∃ c cs, serJson v = c :: cs ∧ isWsChar c = false ∧ c ≠ ']' ∧ c ≠ '}' := by
  cases v with
  | null => refine ⟨'n', _, rfl, ?_, ?_, ?_⟩ <;> decide
  | bool b =>
    cases b
    · refine ⟨'f', _, rfl, ?_, ?_, ?_⟩ <;> decide
    · refine ⟨'t', _, rfl, ?_, ?_, ?_⟩ <;> decide
  | num n =>
    by_cases hn : n < 0
    · refine ⟨'-', natToChars n.natAbs, ?_, by decide, by decide, by decide⟩
      show intToChars n = '-' :: natToChars n.natAbs
      unfold intToChars
      rw [if_pos hn]
    · obtain ⟨c, cs, hcc, hd⟩ := natToChars_cons n.toNat
      obtain ⟨hw, _, _, _, _, _, _, _, h1, h2, _, _⟩ := digit_facts hd
      refine ⟨c, cs, ?_, hw, h1, h2⟩
      show intToChars n = c :: cs
      unfold intToChars
      rw [if_neg hn, hcc]
  | str s => refine ⟨'"', _, rfl, ?_, ?_, ?_⟩ <;> decide
  | arr es => refine ⟨'[', _, rfl, ?_, ?_, ?_⟩ <;> decide
  | obj fs => refine ⟨'{', _, rfl, ?_, ?_, ?_⟩ <;> decide

theorem skipWs_serJson_append (v : Json) (rest : List Char) :
    skipWs (serJson v ++ rest) = serJson v ++ rest := by
  obtain ⟨c, cs, hc, hw, -, -⟩ := serJson_cons v
  rw [hc, List.cons_append, skipWs_cons_of_not_ws hw]

theorem parseVal_null (fuel : Nat) (cs : List Char) :
    parseVal (fuel + 1) ('n' :: cs)
      = (expectChars ['u', 'l', 'l'] cs).map fun r => (Json.null, r) := by
  simp [parseVal, skipWs, isWsChar]

theorem parseVal_true (fuel : Nat) (cs : List Char) :
    parseVal (fuel + 1) ('t' :: cs)
      = (expectChars ['r', 'u', 'e'] cs).map fun r => (Json.bool true, r) := by
  simp [parseVal, skipWs, isWsChar]

theorem parseVal_false (fuel : Nat) (cs : List Char) :
    parseVal (fuel + 1) ('f' :: cs)
      = (expectChars ['a', 'l', 's', 'e'] cs).map fun r => (Json.bool false, r) := by
  simp [parseVal, skipWs, isWsChar]

theorem parseVal_quote (fuel : Nat) (cs : List Char) :
    parseVal (fuel + 1) ('"' :: cs)
      = (parseStrChars cs).map fun (s, r) => (Json.str (String.mk s), r) := by
  simp [parseVal, skipWs, isWsChar]

theorem parseVal_neg (fuel : Nat) (cs : List Char) :
    parseVal (fuel + 1) ('-' :: cs)
      = (parseNat cs).map fun (n, r) => (Json.num (-(n : Int)), r) := by
  simp [parseVal, skipWs, isWsChar]

theorem parseVal_digit (fuel : Nat) {c : Char} (cs : List Char)
    (hd : isDigitCh c = true) :
    parseVal (fuel + 1) (c :: cs)
      = (parseNat (c :: cs)).map fun (n, r) => (Json.num (n : Int), r) := by
  obtain ⟨hw, h1, h2, h3, h4, h5, -, -, -, -, -, -⟩ := digit_facts hd
  rw [parseVal, skipWs_cons_of_not_ws hw]
  simp only [if_neg h1, if_neg h2, if_neg h3, if_neg h4, if_neg h5, if_pos hd]

theorem parseVal_lbrack (fuel : Nat) {c' : Char} (cs' : List Char)
    (hws : isWsChar c' = false) (hne : c' ≠ ']') :
    parseVal (fuel + 1) ('[' :: c' :: cs')
      = (parseElems fuel (c' :: cs')).map fun (es, r) => (Json.arr es, r) := by
  rw [parseVal, skipWs_cons_of_not_ws (by decide)]
  simp only [if_neg (by decide : ¬('[' : Char) = 'n'),
    if_neg (by decide : ¬('[' : Char) = 't'), if_neg (by decide : ¬('[' : Char) = 'f'),
    if_neg (by decide : ¬('[' : Char) = '"'), if_neg (by decide : ¬('[' : Char) = '-'),
    if_neg (by decide : isDigitCh '[' = true → False), if_pos rfl]
  rw [skipWs_cons_of_not_ws hws]
  simp [if_neg hne]

theorem parseVal_lbrace (fuel : Nat) {c' : Char} (cs' : List Char)
    (hws : isWsChar c' = false) (hne : c' ≠ '}') :
    parseVal (fuel + 1) ('{' :: c' :: cs')
      = (parseFields fuel (c' :: cs')).map fun (fs, r) => (Json.obj fs, r) := by
  rw [parseVal, skipWs_cons_of_not_ws (by decide)]
  simp only [if_neg (by decide : ¬('{' : Char) = 'n'),
    if_neg (by decide : ¬('{' : Char) = 't'), if_neg (by decide : ¬('{' : Char) = 'f'),
    if_neg (by decide : ¬('{' : Char) = '"'), if_neg (by decide : ¬('{' : Char) = '-'),
    if_neg (by decide : isDigitCh '{' = true → False),
    if_neg (by decide : ¬('{' : Char) = '['), if_pos rfl]
  rw [skipWs_cons_of_not_ws hws]
  simp [if_neg hne]

theorem parseVal_arr_nil (fuel : Nat) (rest : List Char) :
    parseVal (fuel + 1) ('[' :: ']' :: rest) = some (Json.arr [], rest) := by
  rw [parseVal, skipWs_cons_of_not_ws (by decide)]
  simp [skipWs, isWsChar, isDigitCh]

theorem parseVal_obj_nil (fuel : Nat) (rest : List Char) :
    parseVal (fuel + 1) ('{' :: '}' :: rest) = some (Json.obj [], rest) := by
  rw [parseVal, skipWs_cons_of_not_ws (by decide)]
  simp [skipWs, isWsChar, isDigitCh]

/-- Head shape of a non-empty serialized element list. -/
theorem serElems_cons (e : Json) (es : List Json) :
    ∃ c cs, serElems (e :: es) = c :: cs ∧ isWsChar c = false ∧ c ≠ ']' ∧ c ≠ '}' := by
  obtain ⟨c, cs, hc, hw, h1, h2⟩ := serJson_cons e
  cases es with
  | nil => exact ⟨c, cs, by simp [serElems, hc], hw, h1, h2⟩
  | cons f fs =>
    exact ⟨c, cs ++ ',' :: serElems (f :: fs), by simp [serElems, hc], hw, h1, h2⟩

/-- Head shape of a non-empty serialized member list. -/
theorem serFields_cons (k : String) (v : Json) (fs : List (String × Json)) :
    ∃ cs, serFields ((k, v) :: fs) = '"' :: cs := by
  cases fs with
  | nil =>
    exact ⟨escapeChars k.data ++ '"' :: ':' :: serJson v, by simp [serFields, serStr]⟩
  | cons f fs' =>
    exact ⟨escapeChars k.data ++ '"' :: ':' :: (serJson v ++ ',' :: serFields (f :: fs')),
      by simp [serFields, serStr]⟩

/-- The main round-trip induction: the reader, given enough fuel, inverts the
serializer and consumes exactly the serialized characters. -/
theorem parse_ser (fuel : Nat) :
    (∀ v rest, jsizeV v ≤ fuel → sepOk rest = true →
      parseVal fuel (serJson v ++ rest) = some (v, rest))
    ∧ (∀ e es rest, jsizeE (e :: es) ≤ fuel → sepOk rest = true →
      parseElems fuel (serElems (e :: es) ++ ']' :: rest) = some (e :: es, rest))
    ∧ (∀ k jv fs rest, jsizeF ((k, jv) :: fs) ≤ fuel → sepOk rest = true →
      parseFields fuel (serFields ((k, jv) :: fs) ++ '}' :: rest)
        = some ((k, jv) :: fs, rest)) := by
  induction fuel using Nat.strong_induction_on with
  | _ fuel ih =>
    match fuel with
    | 0 =>
      refine ⟨fun v rest hv _ => absurd hv ?_, fun e es rest he _ => absurd he ?_,
        fun k jv fs rest hf _ => absurd hf ?_⟩
      · have := jsizeV_pos v; omega
      · simp only [jsizeE]; have := jsizeV_pos e; omega
      · simp only [jsizeF]; have := jsizeV_pos jv; omega
    | fuel + 1 =>
      obtain ⟨ihV, ihE, ihF⟩ := ih fuel (Nat.lt_succ_self fuel)
      refine ⟨?_, ?_, ?_⟩
      · -- values
        intro v rest hv hrest
        cases v with
        | null => simp [serJson, parseVal_null, expectChars]
        | bool b =>
          cases b
          · simp [serJson, parseVal_false, expectChars]
          · simp [serJson, parseVal_true, expectChars]
        | num n =>
          by_cases hn : n < 0
          · have hser : serJson (.num n) = '-' :: natToChars n.natAbs := by
              show intToChars n = '-' :: natToChars n.natAbs
              unfold intToChars
              rw [if_pos hn]
            rw [hser, List.cons_append, parseVal_neg,
              parseNat_natToChars _ (sepOk_numBoundary hrest)]
            simp only [Option.map_some']
            rw [show (-(n.natAbs : Int)) = n by omega]
          · have hser : serJson (.num n) = natToChars n.toNat := by
              show intToChars n = natToChars n.toNat
              unfold intToChars
              rw [if_neg hn]
            obtain ⟨c, cs, hcc, hd⟩ := natToChars_cons n.toNat
            rw [hser, hcc, List.cons_append, parseVal_digit fuel _ hd,
              ← List.cons_append, ← hcc,
              parseNat_natToChars _ (sepOk_numBoundary hrest)]
            simp only [Option.map_some']
            rw [show ((n.toNat : Int)) = n by omega]
        | str s =>
          rw [show serJson (.str s) ++ rest
              = '"' :: (escapeChars s.data ++ '"' :: rest) by simp [serJson, serStr]]
          rw [parseVal_quote, parseStrChars_escape]
          rfl
        | arr es =>
          cases es with
          | nil =>
            rw [show serJson (.arr []) ++ rest = '[' :: ']' :: rest by
              simp [serJson, serElems]]
            exact parseVal_arr_nil fuel rest
          | cons e es' =>
            obtain ⟨c, cs, hc, hw, hne, -⟩ := serElems_cons e es'
            rw [show serJson (.arr (e :: es')) ++ rest
              = '[' :: (serElems (e :: es') ++ ']' :: rest) by simp [serJson]]
            rw [hc, List.cons_append, parseVal_lbrack fuel _ hw hne,
              ← List.cons_append, ← hc,
              ihE e es' rest (by simp only [jsizeV] at hv; omega) hrest]
            rfl
        | obj fs =>
          cases fs with
          | nil =>
            rw [show serJson (.obj []) ++ rest = '{' :: '}' :: rest by
              simp [serJson, serFields]]
            exact parseVal_obj_nil fuel rest
          | cons f fs' =>
            obtain ⟨k, jv⟩ := f
            obtain ⟨cs, hc⟩ := serFields_cons k jv fs'
            rw [show serJson (.obj ((k, jv) :: fs')) ++ rest
              = '{' :: (serFields ((k, jv) :: fs') ++ '}' :: rest) by simp [serJson]]
            rw [hc, List.cons_append, parseVal_lbrace fuel _ (by decide) (by decide),
              ← List.cons_append, ← hc,
              ihF k jv fs' rest (by simp only [jsizeV] at hv; omega) hrest]
            rfl
      · -- element lists
        intro e es rest he hrest
        cases es with
        | nil =>
          have hsz : jsizeV e ≤ fuel := by simp only [jsizeE] at he; omega
          rw [parseElems, show serElems [e] = serJson e from rfl,
            ihV e (']' :: rest) hsz (by rfl)]
          simp [skipWs, isWsChar]
        | cons e' es' =>
          have hsz : jsizeV e ≤ fuel := by simp only [jsizeE] at he; omega
          have hsz' : jsizeE (e' :: es') ≤ fuel := by
            simp only [jsizeE] at he ⊢
            have := jsizeV_pos e
            omega
          rw [parseElems,
            show serElems (e :: e' :: es') ++ ']' :: rest
              = serJson e ++ (',' :: (serElems (e' :: es') ++ ']' :: rest)) by
                simp [serElems],
            ihV e _ hsz (by rfl)]
          simp only [Option.bind_eq_bind, Option.some_bind]
          rw [skipWs_cons_of_not_ws (by decide)]
          simp only []
          rw [ihE e' es' rest hsz' hrest]
          rfl
      · -- member lists
        intro k jv fs rest hf hrest
        have hsz : jsizeV jv ≤ fuel := by simp only [jsizeF] at hf; omega
        cases fs with
        | nil =>
          rw [parseFields,
            show serFields [(k, jv)] ++ '}' :: rest
              = '"' :: (escapeChars k.data ++ '"' :: (':' :: (serJson jv ++ '}' :: rest)))
              by simp [serFields, serStr],
            skipWs_cons_of_not_ws (by decide)]
          simp only []
          rw [parseStrChars_escape]
          simp only [Option.bind_eq_bind, Option.some_bind]
          rw [skipWs_cons_of_not_ws (by decide)]
          simp only []
          rw [ihV jv ('}' :: rest) hsz (by rfl)]
          simp [skipWs, isWsChar]
        | cons f fs' =>
          obtain ⟨k', jv'⟩ := f
          have hsz' : jsizeF ((k', jv') :: fs') ≤ fuel := by
            simp only [jsizeF] at hf ⊢
            have := jsizeV_pos jv
            omega
          rw [parseFields,
            show serFields ((k, jv) :: (k', jv') :: fs') ++ '}' :: rest
              = '"' :: (escapeChars k.data ++ '"' :: (':' :: (serJson jv
                  ++ ',' :: (serFields ((k', jv') :: fs') ++ '}' :: rest))))
              by simp [serFields, serStr],
            skipWs_cons_of_not_ws (by decide)]
          simp only []
          rw [parseStrChars_escape]
          simp only [Option.bind_eq_bind, Option.some_bind]
          rw [skipWs_cons_of_not_ws (by decide)]
          simp only []
          rw [ihV jv _ hsz (by rfl)]
          simp only [Option.bind_eq_bind, Option.some_bind]
          rw [skipWs_cons_of_not_ws (by decide)]
          simp only []
          rw [ihF k' jv' fs' rest hsz' hrest]
          rfl

/-- The reader's fuel bound is dominated by the serialized length, so
`String.length + 1` fuel always suffices. -/
theorem jsize_le_serLength (bound : Nat) :
    (∀ v, jsizeV v ≤ bound → jsizeV v ≤ (serJson v).length)
    ∧ (∀ e es, jsizeE (e :: es) ≤ bound →
        jsizeE (e :: es) ≤ (serElems (e :: es)).length + 1)
    ∧ (∀ k jv fs, jsizeF ((k, jv) :: fs) ≤ bound →
        jsizeF ((k, jv) :: fs) ≤ (serFields ((k, jv) :: fs)).length + 1) := by
  induction bound using Nat.strong_induction_on with
  | _ bound ih =>
    refine ⟨?_, ?_, ?_⟩
    · intro v hv
      cases v with
      | null => simp [serJson, jsizeV]
      | bool b => cases b <;> simp [serJson, jsizeV]
      | num n =>
        obtain ⟨c, cs, hc, -⟩ := serJson_cons (.num n)
        rw [hc]
        simp [jsizeV]
      | str s => simp [serJson, serStr, jsizeV]
      | arr es =>
        cases es with
        | nil => simp [serJson, serElems, jsizeV, jsizeE]
        | cons e es' =>
          have hb : jsizeE (e :: es') < bound := by
            simp only [jsizeV] at hv
            omega
          have h2 := (ih (jsizeE (e :: es')) hb).2.1 e es' (le_refl _)
          have hsz : jsizeV (Json.arr (e :: es')) = jsizeE (e :: es') + 1 := rfl
          have hlen : (serJson (Json.arr (e :: es'))).length
              = (serElems (e :: es')).length + 2 := by
            show ('[' :: (serElems (e :: es') ++ [']'])).length = _
            simp
          omega
      | obj fs =>
        cases fs with
        | nil => simp [serJson, serFields, jsizeV, jsizeF]
        | cons f fs' =>
          obtain ⟨k, jv⟩ := f
          have hb : jsizeF ((k, jv) :: fs') < bound := by
            simp only [jsizeV] at hv
            omega
          have h2 := (ih (jsizeF ((k, jv) :: fs')) hb).2.2 k jv fs' (le_refl _)
          have hsz : jsizeV (Json.obj ((k, jv) :: fs')) = jsizeF ((k, jv) :: fs') + 1 := rfl
          have hlen : (serJson (Json.obj ((k, jv) :: fs'))).length
              = (serFields ((k, jv) :: fs')).length + 2 := by
            show ('{' :: (serFields ((k, jv) :: fs') ++ ['}'])).length = _
            simp
          omega
    · intro e es he
      have hev : jsizeV e < bound := by
        have hx : jsizeE (e :: es) = jsizeV e + jsizeE es + 1 := rfl
        omega
      have h1 := (ih (jsizeV e) hev).1 e (le_refl _)
      cases es with
      | nil =>
        have hsz : jsizeE [e] = jsizeV e + 1 := by simp [jsizeE]
        have hlen : (serElems [e]).length = (serJson e).length := rfl
        omega
      | cons e' es' =>
        have hb : jsizeE (e' :: es') < bound := by
          have hx : jsizeE (e :: e' :: es') = jsizeV e + jsizeE (e' :: es') + 1 := rfl
          have := jsizeV_pos e
          omega
        have h2 := (ih (jsizeE (e' :: es')) hb).2.1 e' es' (le_refl _)
        have hsz : jsizeE (e :: e' :: es') = jsizeV e + jsizeE (e' :: es') + 1 := rfl
        have hlen : (serElems (e :: e' :: es')).length
            = (serJson e).length + (serElems (e' :: es')).length + 1 := by
          show (serJson e ++ ',' :: serElems (e' :: es')).length = _
          simp
          omega
        omega
    · intro k jv fs hf
      have hjv : jsizeV jv < bound := by
        have hx : jsizeF ((k, jv) :: fs) = jsizeV jv + jsizeF fs + 1 := rfl
        omega
      have h1 := (ih (jsizeV jv) hjv).1 jv (le_refl _)
      cases fs with
      | nil =>
        have hsz : jsizeF [(k, jv)] = jsizeV jv + 1 := by simp [jsizeF]
        have hlen : (serFields [(k, jv)]).length
            = (serStr k).length + (serJson jv).length + 1 := by
          show (serStr k ++ ':' :: serJson jv).length = _
          simp
          omega
        omega
      | cons f fs' =>
        obtain ⟨k', jv'⟩ := f
        have hb : jsizeF ((k', jv') :: fs') < bound := by
          have hx : jsizeF ((k, jv) :: (k', jv') :: fs')
              = jsizeV jv + jsizeF ((k', jv') :: fs') + 1 := rfl
          have := jsizeV_pos jv
          omega
        have h2 := (ih (jsizeF ((k', jv') :: fs')) hb).2.2 k' jv' fs' (le_refl _)
        have hsz : jsizeF ((k, jv) :: (k', jv') :: fs')
            = jsizeV jv + jsizeF ((k', jv') :: fs') + 1 := rfl
        have hlen : (serFields ((k, jv) :: (k', jv') :: fs')).length
            = (serStr k).length + (serJson jv).length
              + (serFields ((k', jv') :: fs')).length + 2 := by
          simp [serFields]
          omega
        omega

/-- Round-trip law: the model of `JSON.parse` inverts the model of
`JSON.stringify` on every JSON value. -/
theorem JSONparse_serJson (v : Json) :
    JSONparse (String.mk (serJson v)) = some v := by
  unfold JSONparse
  show (match parseVal ((serJson v).length + 1) (serJson v) with
    | some (v, rest) => if skipWs rest = [] then some v else none
    | none => none) = some v
  have hsz : jsizeV v ≤ (serJson v).length + 1 := by
    have := (jsize_le_serLength (jsizeV v)).1 v (le_refl _)
    omega
  have := ((parse_ser ((serJson v).length + 1)).1 v [] hsz rfl)
  rw [List.append_nil] at this
  rw [this]
  rfl

/-! ## Claim C1 — entry-point cascade -/

/-- Claim C1 (amended): for every mint call that reaches submission, the
candidate entry points are tried in the fixed order `mint`, `safeMint`,
`mintWithMetadata`; the first that does not raise is used; when all three
raise, the call fails with the entry-point-not-found error carrying the
**first** underlying error (the message interpolated as `Original error` in
`mint.js` line 147), not the last. -/
theorem c1_entry_point_cascade
    (submit : EntryPoint → String → String → Except String String) (dest mj : String) :
    (∀ tx, submit .mintFn dest mj = .ok tx → attemptMint submit dest mj = .ok tx)
    ∧ (∀ e1 tx, submit .mintFn dest mj = .error e1 →
        submit .safeMintFn dest mj = .ok tx →
        attemptMint submit dest mj = .ok tx)
    ∧ (∀ e1 e2 tx, submit .mintFn dest mj = .error e1 →
        submit .safeMintFn dest mj = .error e2 →
        submit .mintWithMetadataFn dest mj = .ok tx →
        attemptMint submit dest mj = .ok tx)
    ∧ (∀ e1 e2 e3, submit .mintFn dest mj = .error e1 →
        submit .safeMintFn dest mj = .error e2 →
        submit .mintWithMetadataFn dest mj = .error e3 →
        attemptMint submit dest mj = .error (.mintEntryPointNotFound e1)) := by
  refine ⟨?_, ?_, ?_, ?_⟩ <;> intros <;> simp_all [attemptMint]

/-- Witness for `c1_entry_point_cascade` at the two concrete oracles. -/
theorem c1_entry_point_cascade_witness :
    attemptMint submitSafeOnly "dest" "meta" = .ok "0xTXHASH"
    ∧ attemptMint submitAllFail "dest" "meta"
        = .error (.mintEntryPointNotFound "mint rejected") :=
  ⟨(c1_entry_point_cascade submitSafeOnly "dest" "meta").2.1 "mint rejected" "0xTXHASH"
      rfl rfl,
   (c1_entry_point_cascade submitAllFail "dest" "meta").2.2.2 "mint rejected"
      "safeMint rejected" "mintWithMetadata rejected" rfl rfl rfl⟩

/-- Claim C1 counterexample to the claim as stated: when all three candidates
raise (messages `mint rejected`, `safeMint rejected`,
`mintWithMetadata rejected`), the error carries the first message, not the
message of the final candidate tried. -/
theorem c1_counterexample :
    attemptMint submitAllFail "dest" "meta"
        = .error (.mintEntryPointNotFound "mint rejected")
    ∧ ¬ attemptMint submitAllFail "dest" "meta"
        = .error (.mintEntryPointNotFound "mintWithMetadata rejected") := by
  constructor
  · rfl
  · simp [attemptMint, submitAllFail]

/-! ## Claim C3 — the four decoder cases -/

/-- Claim C3: metadata decoding tries exactly four cases in order — a
`data:application/json` prefix is base64-decoded then JSON-parsed; a string
beginning with `{` is JSON-parsed directly; a string beginning with `http` is
wrapped as `uri` without fetching; anything else never raises and produces the
`raw` wrapper — and the blob `"not-json-not-uri"` decodes to its `raw`
wrapper. -/
theorem c3_decoder_cases (s : String) :
    (strStartsWith s "data:application/json" = true →
      decodeTokenURI s = dataUriDecode s)
    ∧ (strStartsWith s "data:application/json" = false →
        strStartsWith s "\x7b" = true →
        decodeTokenURI s = (match JSONparse s with
          | some m => Except.ok m
          | none => Except.error "SyntaxError: unexpected token in JSON"))
    ∧ (strStartsWith s "data:application/json" = false →
        strStartsWith s "\x7b" = false →
        strStartsWith s "http" = true →
        decodeTokenURI s = .ok (Json.obj [("uri", Json.str s)]))
    ∧ (strStartsWith s "data:application/json" = false →
        strStartsWith s "\x7b" = false →
        strStartsWith s "http" = false →
        decodeTokenURI s = .ok (Json.obj [("raw", Json.str s)]))
    ∧ decodeTokenURI "not-json-not-uri"
        = .ok (Json.obj [("raw", Json.str "not-json-not-uri")]) := by
  refine ⟨?_, ?_, ?_, ?_, ?_⟩
  · intro h1
    simp [decodeTokenURI, h1]
  · intro h1 h2
    simp [decodeTokenURI, h1, h2]
  · intro h1 h2 h3
    simp [decodeTokenURI, h1, h2, h3]
  · intro h1 h2 h3
    simp [decodeTokenURI, h1, h2, h3]
  · rfl

/-- Witness for `c3_decoder_cases`: the fallback case at the scenario blob. -/
theorem c3_decoder_cases_witness :
    decodeTokenURI "not-json-not-uri"
      = .ok (Json.obj [("raw", Json.str "not-json-not-uri")]) :=
  (c3_decoder_cases "not-json-not-uri").2.2.2.1 rfl rfl rfl

/-! ## Claim C9 — distinct token-not-found error -/

/-- Claim C9: when the owner lookup of a token fails (nonexistent or burned),
`getItem` fails with the dedicated does-not-exist-or-has-been-burned error —
never a generic one — and `verifyOwner`'s point query behaves identically. -/
theorem c9_owner_lookup_failure (env : QueryEnv) (w : String) (tid : JsInput)
    (n : JsNum) (ca : String) (cfg : QueryConfig)
    (hw1 : ¬ w = "") (hw2 : isAddress w = true)
    (hv : validateTokenId tid = .ok n)
    (hca : resolveContract env.deployment cfg.contractAddress = .ok ca)
    (ho : env.ledger.ownerOf n = none) :
    getItem env tid cfg = .error (.tokenNotFound (jsInputToString tid))
    ∧ verifyOwner env w tid cfg = .error (.tokenNotFound (jsInputToString tid)) := by
  constructor
  · simp [getItem, hv, hca, ho, Bind.bind, Except.bind, throw, throwThe,
      MonadExceptOf.throw]
  · simp [verifyOwner, hw1, hw2, hv, hca, ho, Bind.bind, Except.bind, Pure.pure,
      Except.pure, throw, throwThe, MonadExceptOf.throw]

/-- Witness for `c9_owner_lookup_failure` on the no-token ledger. -/
theorem c9_owner_lookup_failure_witness :
    getItem noTokenEnv (.num (.val 3)) qcfg
        = .error (.tokenNotFound (jsInputToString (.num (.val 3))))
    ∧ verifyOwner noTokenEnv addrX (.num (.val 3)) qcfg
        = .error (.tokenNotFound (jsInputToString (.num (.val 3)))) :=
  c9_owner_lookup_failure noTokenEnv addrX (.num (.val 3)) (.val 3) contractC qcfg
    (by decide) (by decide) rfl rfl rfl

/-! ## Claim C6 — ownership verification agrees with `getItem` -/

/-- Claim C6: for an existing token and a well-formed address, `verifyOwner`
reports `isOwner: true` exactly when the owner that `getItem` reports for the
same token equals the queried address after lower-casing both. -/
theorem c6_ownership_iff (env : QueryEnv) (w : String) (tid : JsInput) (n : JsNum)
    (ca o : String) (cfg : QueryConfig)
    (hw1 : ¬ w = "") (hw2 : isAddress w = true)
    (hv : validateTokenId tid = .ok n)
    (hca : resolveContract env.deployment cfg.contractAddress = .ok ca)
    (ho : env.ledger.ownerOf n = some o) :
    ∃ g r, getItem env tid cfg = .ok g ∧ verifyOwner env w tid cfg = .ok r
      ∧ g.owner = o
      ∧ (r.isOwner = true ↔ jsToLower g.owner = jsToLower w) := by
  obtain ⟨g, hg, hgo⟩ : ∃ g, getItem env tid cfg = .ok g ∧ g.owner = o := by
    simp only [getItem, hv, hca, ho, Bind.bind, Except.bind, Pure.pure, Except.pure]
    exact ⟨_, rfl, rfl⟩
  have hcalc : verifyOwner env w tid cfg = .ok {
      isOwner := decide (jsToLower w = jsToLower o)
      walletAddress := w
      actualOwner := o
      tokenId := jsNumToString n
      contractAddress := ca } := by
    simp [verifyOwner, hw1, hw2, hv, hca, ho, Bind.bind, Except.bind, Pure.pure,
      Except.pure]
  refine ⟨g, _, hg, hcalc, hgo, ?_⟩
  rw [hgo]
  simp [eq_comm]

/-- Witness for `c6_ownership_iff`: token 3 owned by the upper-case form of
the queried address. -/
theorem c6_ownership_iff_witness :
    ∃ g r, getItem ownedEnv (.num (.val 3)) qcfg = .ok g
      ∧ verifyOwner ownedEnv addrX (.num (.val 3)) qcfg = .ok r
      ∧ g.owner = addrXUp
      ∧ (r.isOwner = true ↔ jsToLower g.owner = jsToLower addrX) :=
  c6_ownership_iff ownedEnv addrX (.num (.val 3)) (.val 3) contractC addrXUp qcfg
    (by decide) (by decide) rfl rfl rfl

/-! ## Claim C10 — tokenId validation boundary -/

/-- Claim C10: `getItem` and `verifyOwner` reject a `tokenId` exactly when it is
missing, not numerically convertible (`Number(tokenId)` is `NaN`), or
negative; `0` and non-integer values such as `1.5` pass validation and are
forwarded to the ledger owner lookup (both sources duplicate the validation
modelled by `validateTokenId`). -/
theorem c10_tokenid_validation :
    (∀ t : JsInput, (∃ e, validateTokenId t = .error e)
        ↔ (t = .missing ∨ jsIsNaN (inputToNumber t) = true
            ∨ jsLtZero (inputToNumber t) = true))
    ∧ validateTokenId (.num (.val 0)) = .ok (.val 0)
    ∧ validateTokenId (.num (.val (3 / 2))) = .ok (.val (3 / 2))
    ∧ (∀ (env : QueryEnv) (cfg : QueryConfig) (ca : String),
        resolveContract env.deployment cfg.contractAddress = .ok ca →
        env.ledger.ownerOf (.val (3 / 2)) = none →
        getItem env (.num (.val (3 / 2))) cfg
          = .error (.tokenNotFound (jsInputToString (.num (.val (3 / 2))))))
    ∧ (∀ (env : QueryEnv) (cfg : QueryConfig) (ca w : String), ¬ w = "" →
        isAddress w = true →
        resolveContract env.deployment cfg.contractAddress = .ok ca →
        env.ledger.ownerOf (.val 0) = none →
        verifyOwner env w (.num (.val 0)) cfg
          = .error (.tokenNotFound (jsInputToString (.num (.val 0))))) := by
  have h32nan : jsIsNaN (.val ((3 : ℚ) / 2)) = false := rfl
  have h32neg : jsLtZero (.val ((3 : ℚ) / 2)) = false := by
    simp only [jsLtZero, decide_eq_false_iff_not]
    norm_num
  have h32val : validateTokenId (.num (.val (3 / 2))) = .ok (.val (3 / 2)) := by
    simp [validateTokenId, inputToNumber, h32nan, h32neg]
  refine ⟨?_, by rfl, h32val, ?_, ?_⟩
  · intro t
    cases t with
    | missing => simp [validateTokenId]
    | num n =>
      by_cases h : (jsIsNaN (inputToNumber (.num n))
          || jsLtZero (inputToNumber (.num n))) = true
      · rw [Bool.or_eq_true] at h
        constructor
        · intro _
          exact Or.inr h
        · intro _
          refine ⟨.tokenIdInvalid, ?_⟩
          simp only [validateTokenId]
          rw [if_pos (by rw [Bool.or_eq_true]; exact h)]
      · rw [Bool.or_eq_true] at h
        push_neg at h
        constructor
        · rintro ⟨e, he⟩
          simp only [validateTokenId] at he
          rw [if_neg (by rw [Bool.or_eq_true]; exact not_or.mpr h)] at he
          exact absurd he (by simp)
        · rintro (h1 | h2 | h3)
          · exact absurd h1 (by simp)
          · exact absurd h2 h.1
          · exact absurd h3 h.2
    | str s =>
      by_cases h : (jsIsNaN (inputToNumber (.str s))
          || jsLtZero (inputToNumber (.str s))) = true
      · rw [Bool.or_eq_true] at h
        constructor
        · intro _
          exact Or.inr h
        · intro _
          refine ⟨.tokenIdInvalid, ?_⟩
          simp only [validateTokenId]
          rw [if_pos (by rw [Bool.or_eq_true]; exact h)]
      · rw [Bool.or_eq_true] at h
        push_neg at h
        constructor
        · rintro ⟨e, he⟩
          simp only [validateTokenId] at he
          rw [if_neg (by rw [Bool.or_eq_true]; exact not_or.mpr h)] at he
          exact absurd he (by simp)
        · rintro (h1 | h2 | h3)
          · exact absurd h1 (by simp)
          · exact absurd h2 h.1
          · exact absurd h3 h.2
  · intro env cfg ca hca ho
    simp [getItem, h32val, hca, ho, Bind.bind, Except.bind, throw, throwThe,
      MonadExceptOf.throw]
  · intro env cfg ca w hw1 hw2 hca ho
    have hval : validateTokenId (.num (.val 0)) = .ok (.val 0) := rfl
    simp [verifyOwner, hw1, hw2, hval, hca, ho, Bind.bind, Except.bind, Pure.pure,
      Except.pure, throw, throwThe, MonadExceptOf.throw]

/-- Witness for `c10_tokenid_validation`: a non-numeric string is rejected,
and `1.5` is forwarded to the (failing) owner lookup. -/
theorem c10_tokenid_validation_witness :
    (∃ e, validateTokenId (.str "abc") = .error e)
    ∧ getItem noTokenEnv (.num (.val (3 / 2))) qcfg
        = .error (.tokenNotFound (jsInputToString (.num (.val (3 / 2))))) :=
  ⟨(c10_tokenid_validation.1 (.str "abc")).mpr (Or.inr (Or.inl (by decide))),
   c10_tokenid_validation.2.2.2.1 noTokenEnv qcfg contractC rfl rfl⟩

/-! ## Claim C2 — metadata round trip -/

/-- Dispatch fact: a blob that begins with `{` does not begin with the
data-URI prefix. -/
theorem lbrace_not_data_prefix (tail : List Char) :
    strStartsWith (String.mk ('{' :: tail)) "data:application/json" = false := by
  simp [strStartsWith, List.isPrefixOf]

/-- Dispatch fact: a blob that begins with `{` satisfies the second decoder
guard. -/
theorem lbrace_prefix (tail : List Char) :
    strStartsWith (String.mk ('{' :: tail)) "\x7b" = true := by
  simp [strStartsWith, List.isPrefixOf]

/-- Claim C2: decoding the canonical metadata blob that `mint` stores (the
`JSON.stringify` of the metadata object) recovers the metadata object
exactly, and its `traits` field is the caller's traits unchanged — the
encode→store→fetch→decode round trip preserves traits for every image
reference and every traits value. -/
theorem c2_metadata_roundtrip (imageUrl : String) (traits : Json) :
    decodeTokenURI (mintMetadataJson imageUrl traits)
        = .ok (mintMetadata imageUrl traits)
    ∧ jsProp (mintMetadata imageUrl traits) "traits" = some traits := by
  constructor
  · show decodeTokenURI (String.mk (serJson (mintMetadata imageUrl traits))) = _
    obtain ⟨tail, htail⟩ : ∃ t, serJson (mintMetadata imageUrl traits) = '{' :: t :=
      ⟨_, rfl⟩
    rw [htail]
    have h1 := lbrace_not_data_prefix tail
    have h2 := lbrace_prefix tail
    simp only [decodeTokenURI, h1, h2, Bool.false_eq_true, if_false, if_true]
    rw [← htail, JSONparse_serJson]
  · simp [jsProp, mintMetadata, lookupField]

/-! ## Claim C4 — partial indexed results are discarded -/

/-- A failing per-index read anywhere in the window makes the whole indexed
loop fail. -/
theorem indexedLoop_none (led : Ledger) (w : String) :
    ∀ (count i : Nat), (∃ k, k < count ∧ led.tokenOfOwnerByIndex w (i + k) = none) →
      indexedLoop led w i count = none := by
  intro count
  induction count with
  | zero =>
    rintro i ⟨k, hk, -⟩
    omega
  | succ c ih =>
    rintro i ⟨k, hk, hfail⟩
    rw [indexedLoop]
    cases hcur : led.tokenOfOwnerByIndex w i with
    | none => rfl
    | some tid =>
      cases k with
      | zero => rw [Nat.add_zero] at hfail; rw [hfail] at hcur; cases hcur
      | succ k' =>
        have hnext : led.tokenOfOwnerByIndex w (i + 1 + k') = none := by
          rw [show i + 1 + k' = i + (k' + 1) by omega]
          exact hfail
        rw [ih (i + 1) ⟨k', by omega, hnext⟩]
        rfl

/-- Claim C4: when the indexed discovery strategy fails on some per-index read,
the partial indexed result is discarded in full and `retrieve` returns
exactly the scan-derived result. -/
theorem c4_partial_indexed_discarded (env : QueryEnv) (w : String) (cfg : QueryConfig)
    (ca : String) (b total : Nat)
    (hw1 : ¬ w = "") (hw2 : isAddress w = true)
    (hca : resolveContract env.deployment cfg.contractAddress = .ok ca)
    (hb : env.ledger.balanceOf w = some b) (hb0 : 0 < b)
    (hfail : ∃ k, k < b ∧ env.ledger.tokenOfOwnerByIndex w k = none)
    (ht : env.ledger.totalSupply = some total) :
    retrieve env w cfg
      = .ok (((scanTokens env.ledger w total).map natToStr).map (fetchOne env.ledger)) := by
  have hloop : indexedLoop env.ledger w 0 b = none := by
    apply indexedLoop_none
    obtain ⟨k, hk, hf⟩ := hfail
    exact ⟨k, hk, by simpa using hf⟩
  simp [retrieve, hw1, hw2, hca, hb, Nat.pos_iff_ne_zero.mp hb0, hloop, scanRetrieve,
    ht, Bind.bind, Except.bind, Pure.pure, Except.pure]

/-- Witness for `c4_partial_indexed_discarded`: balance 3, index 1 fails,
scan over supply 5 finds tokens 2 and 4. -/
theorem c4_partial_indexed_discarded_witness :
    retrieve idxEnv addrX qcfg
      = .ok (((scanTokens idxEnv.ledger addrX 5).map natToStr).map (fetchOne idxEnv.ledger))
    ∧ scanTokens idxEnv.ledger addrX 5 = [2, 4] :=
  ⟨c4_partial_indexed_discarded idxEnv addrX qcfg contractC 3 5
      (by decide) (by decide) rfl rfl (by decide) ⟨1, by decide, rfl⟩ rfl,
   by rfl⟩

/-! ## Claim C5 — the scan strategy -/

/-- Claim C5: a `retrieve` call that uses the scan strategy reads the total
supply, queries the owner of every identifier from 1 to that count, skips
identifiers whose owner query fails, collects exactly those whose owner
equals the queried address case-insensitively, and returns them in ascending
identifier order. -/
theorem c5_scan_strategy (env : QueryEnv) (w : String) (cfg : QueryConfig)
    (ca : String) (total : Nat)
    (hw1 : ¬ w = "") (hw2 : isAddress w = true)
    (hca : resolveContract env.deployment cfg.contractAddress = .ok ca)
    (hbal : env.ledger.balanceOf w = none)
    (ht : env.ledger.totalSupply = some total) :
    retrieve env w cfg
      = .ok (((scanTokens env.ledger w total).map natToStr).map (fetchOne env.ledger))
    ∧ (∀ id, id ∈ scanTokens env.ledger w total ↔
        (1 ≤ id ∧ id ≤ total
          ∧ ∃ o, env.ledger.ownerOf (.val (id : ℚ)) = some o
              ∧ jsToLower o = jsToLower w))
    ∧ List.Pairwise (· < ·) (scanTokens env.ledger w total)
    ∧ (retrieve env w cfg).map (List.map Item.tokenId)
        = .ok ((scanTokens env.ledger w total).map natToStr) := by
  have hmain : retrieve env w cfg
      = .ok (((scanTokens env.ledger w total).map natToStr).map (fetchOne env.ledger)) := by
    simp [retrieve, hw1, hw2, hca, hbal, scanRetrieve, ht, Bind.bind, Except.bind,
      Pure.pure, Except.pure]
  refine ⟨hmain, ?_, ?_, ?_⟩
  · intro id
    unfold scanTokens
    rw [List.mem_filter, List.mem_range'_1]
    constructor
    · rintro ⟨hrange, hstep⟩
      refine ⟨by omega, by omega, ?_⟩
      unfold scanStep at hstep
      cases ho : env.ledger.ownerOf (.val (id : ℚ)) with
      | none => rw [ho] at hstep; cases hstep
      | some o =>
        rw [ho] at hstep
        exact ⟨o, rfl, by simpa using hstep⟩
    · rintro ⟨h1, h2, o, ho, heq⟩
      refine ⟨by omega, ?_⟩
      unfold scanStep
      rw [ho]
      simpa using heq
  · exact List.Pairwise.filter _ (List.pairwise_lt_range' 1 total)
  · have hid : ∀ sid, (fetchOne env.ledger sid).tokenId = sid := by
      intro sid
      unfold fetchOne
      split
      · rfl
      · split <;> rfl
    rw [hmain]
    simp [Except.map, List.map_map, Function.comp, hid]

/-- Witness for `c5_scan_strategy`: the spec scenario — total supply 5,
`addrX` owns exactly identifiers 2 and 4, the result lists exactly `"2"` and
`"4"` in ascending order. -/
theorem c5_scan_strategy_witness :
    retrieve scanEnv addrX qcfg
      = .ok (((scanTokens scanEnv.ledger addrX 5).map natToStr).map (fetchOne scanEnv.ledger))
    ∧ scanTokens scanEnv.ledger addrX 5 = [2, 4]
    ∧ (retrieve scanEnv addrX qcfg).map (List.map Item.tokenId) = .ok ["2", "4"] := by
  refine ⟨(c5_scan_strategy scanEnv addrX qcfg contractC 5
      (by decide) (by decide) rfl rfl rfl).1, by rfl, ?_⟩
  have h := (c5_scan_strategy scanEnv addrX qcfg contractC 5
      (by decide) (by decide) rfl rfl rfl).2.2.2
  rw [h]
  rfl

/-! ## Claim C7 — token-id extraction after confirmation -/

/-- Claim C7 at the failing input (code bug): with a confirmed receipt whose log
array contains no parseable Transfer event (here: an empty array), `mint`
throws the `parseLog(undefined)` TypeError instead of falling back to
`totalSupply − 1` — the fallback documented in the source comment and the
spec is unreachable from this branch.  With a falsy `logs` field — which
ethers never produces — the intended fallback does run and yields
`totalSupply − 1`, and a mint remains successful. -/
theorem c7_no_transfer_event_crashes :
    mint envEmptyLogs addrX (some "http://img.png") (Json.obj [("a", Json.num 1)]) mcfg
      = .error .parseLogOfUndefined
    ∧ extractTokenId envEmptyLogs.parseLogFn (some []) = .error .parseLogOfUndefined
    ∧ (mint envNoLogs addrX (some "http://img.png") (Json.obj [("a", Json.num 1)])
        mcfg).map (fun r => r.tokenId) = .ok (some "4") := by
  refine ⟨rfl, rfl, rfl⟩

/-! ## Claim C8 — input validation before any ledger interaction -/

/-- Claim C8 (amended): a malformed destination address, a missing or empty
image reference, and invalid traits each fail with the corresponding
validation error, for **every** environment — in particular for every
submission oracle, so no ledger write is attempted.  (A non-empty image
string that is not URL- or data-URI-shaped is *not* rejected: when the
remote content probe is unavailable the code only logs a warning, shown
separately at a concrete input.) -/
theorem c8_validation_guard (env : MintEnv) (dest : String) (img : Option String)
    (traits : Json) (cfg : MintConfig) :
    ((dest = "" ∨ isAddress dest = false) →
      mint env dest img traits cfg = .error .invalidDestination)
    ∧ (isAddress dest = true → ¬ dest = "" → (img = none ∨ img = some "") →
      mint env dest img traits cfg = .error .imageUrlRequired)
    ∧ (∀ u, isAddress dest = true → ¬ dest = "" → img = some u → ¬ u = "" →
        imageProbe env.fetch = .ok () →
        (jsTruthy traits = false ∨ isObjectType traits = false) →
        mint env dest img traits cfg = .error .invalidTraits) := by
  refine ⟨?_, ?_, ?_⟩
  · intro h
    simp only [mint, if_pos h]
    simp [Bind.bind, Except.bind, throw, throwThe, MonadExceptOf.throw]
  · intro hA hne himg
    have hcond : ¬ (dest = "" ∨ isAddress dest = false) := by simp [hne, hA]
    rcases himg with rfl | rfl <;>
      · simp only [mint, if_neg hcond]
        simp [Bind.bind, Except.bind, Pure.pure, Except.pure, throw, throwThe,
          MonadExceptOf.throw]
  · intro u hA hne himg hu hprobe htraits
    subst himg
    have hcond : ¬ (dest = "" ∨ isAddress dest = false) := by simp [hne, hA]
    simp only [mint, if_neg hcond]
    simp [hu, hprobe, htraits, if_pos htraits, Bind.bind, Except.bind, Pure.pure,
      Except.pure, throw, throwThe, MonadExceptOf.throw]

/-- Witness for `c8_validation_guard`: a malformed destination and non-object
traits are each rejected before submission. -/
theorem c8_validation_guard_witness :
    mint envNoFetch "nope" (some "http://x.png") (Json.obj []) mcfg
      = .error .invalidDestination
    ∧ mint envNoFetch addrX (some "http://x.png") (Json.str "s") mcfg
      = .error .invalidTraits :=
  ⟨(c8_validation_guard envNoFetch "nope" (some "http://x.png") (Json.obj []) mcfg).1
      (Or.inr rfl),
   (c8_validation_guard envNoFetch addrX (some "http://x.png") (Json.str "s") mcfg).2.2
      "http://x.png" rfl (by decide) rfl (by decide) rfl (Or.inr rfl)⟩

/-- Claim C8 counterexample to the claim as stated: the image reference
`"hello"` is neither URL- nor data-URI-shaped, yet validation passes (the
shape check only warns) and the call proceeds to the ledger write — the
resulting error comes from the submission cascade, not from validation. -/
theorem c8_counterexample :
    mint envNoFetch addrX (some "hello") (Json.obj []) mcfg
      = .error (.mintEntryPointNotFound "mint rejected")
    ∧ MintErr.isValidation (.mintEntryPointNotFound "mint rejected") = false :=
  ⟨rfl, rfl⟩

end NftClient
